import Mathlib

/-!
# URL shortener: key allocation and mapping consistency

A shallow embedding of `internal/shortener/shortener.go`,
`internal/storage/sqlite.go` and `internal/api/handler.go`, followed by the
properties of the allocation engine proved over it.

Modelling conventions

* The process-wide generator of `math/rand/v2` is a stream of raw values
  together with the number of values consumed so far; `rand.N(n)` reduces the
  next raw value into the range `0 .. n-1`, so every outcome in that range
  occurs for some stream.
* The table `urls` is the list of its rows in rowid order.  The `id` column is
  assigned by the engine and read by no query of the program, so a row is its
  `short_key` and `original_url`.
* Everything the program does not control at a store call is an `Env` item:
  rows committed by other connections right before the statement runs, and
  whether the statement ends with an infrastructure error.  A store carries
  the script of the items still to come; an exhausted script means a quiet,
  healthy environment.
* A handler returns the response it wrote, the store and generator it leaves
  behind, and the list of the calls it made on its collaborators, in order.
* A redirect is recorded by the `Location` header that `http.Redirect` of the
  Go standard library writes for the target it is given.  That function, and
  what it uses of `net/url` and `path`, are library code; they are modelled
  here on the characters of the target, which agrees with the library on the
  bytes because every byte the library tests for is ASCII.
-/

namespace UrlShortener

/-! ## internal/shortener/shortener.go -/

/-- The constant `charset`. -/
def charset : String := "abcdefghijklmnopqrstuvwxyzABCDEFGHIJKLMNOPQRSTUVWXYZ0123456789"

/-- The constant `keyLength`. -/
def keyLength : Nat := 7

/-- The global random source: the stream of its raw outputs and how many of
them were consumed. -/
structure Rand where
  raw : Nat → Nat
  pos : Nat

/-- The call `rand.N(n)` for a positive `n`: a value below `n`, and the
advanced source. -/
def Rand.N (g : Rand) (n : Nat) (hn : 0 < n) : Fin n × Rand :=
  (⟨g.raw g.pos % n, Nat.mod_lt _ hn⟩, { g with pos := g.pos + 1 })

/-- The loop `for i := range b { b[i] = charset[rand.N(uint64(len(charset)))] }`
over the `n` bytes still to fill. -/
def fillKey : Nat → Rand → List Char × Rand
  | 0, g => ([], g)
  | n + 1, g =>
    let d := g.N charset.data.length (by decide)
    let rest := fillKey n d.2
    (charset.data.get d.1 :: rest.1, rest.2)

/-- The function `GenerateShortKey`. -/
def GenerateShortKey (g : Rand) : String × Rand :=
  let b := fillKey keyLength g
  (String.mk b.1, b.2)

/-! ## internal/storage/sqlite.go -/

/-- One row of the table `urls`. -/
structure UrlRow where
  short_key : String
  original_url : String
  deriving DecidableEq, Repr

/-- The errors a statement can end with: `sql.ErrNoRows`, the violation of the
`UNIQUE` constraint on `short_key`, and any other fault of the engine. -/
inductive DbError where
  | ErrNoRows
  | ErrConstraintUnique
  | ErrFault
  deriving DecidableEq, Repr

deriving instance DecidableEq for Except

/-- What the environment does at one statement. -/
structure Env where
  commits : List UrlRow
  fault : Bool
  deriving DecidableEq, Repr

/-- The store: the rows of `urls` and the script of the environment. -/
structure SQLiteStore where
  urls : List UrlRow
  env : List Env
  deriving DecidableEq, Repr

/-- The statement `INSERT INTO urls (short_key, original_url) VALUES (?, ?)`
against a table whose `short_key` column is declared `UNIQUE`. -/
def insertRow (urls : List UrlRow) (shortKey originalURL : String) : Option (List UrlRow) :=
  if urls.any (fun r => decide (r.short_key = shortKey)) then none
  else some (urls ++ [⟨shortKey, originalURL⟩])

/-- An insert committed by another connection: it is subject to the same
constraint, and a rejected one leaves the table as it was. -/
def commitRow (urls : List UrlRow) (r : UrlRow) : List UrlRow :=
  (insertRow urls r.short_key r.original_url).getD urls

/-- A statement starts: the environment takes its turn.  Returns whether the
statement faults, and the store the statement runs against. -/
def SQLiteStore.begin (s : SQLiteStore) : Bool × SQLiteStore :=
  match s.env with
  | [] => (false, s)
  | e :: rest => (e.fault, { urls := e.commits.foldl commitRow s.urls, env := rest })

/-- The call `QueryRow(... WHERE p ...).Scan(...)`: the first matching row, or
`sql.ErrNoRows`. -/
def SQLiteStore.queryRow (s : SQLiteStore) (p : UrlRow → Bool) :
    Except DbError UrlRow × SQLiteStore :=
  let b := s.begin
  if b.1 then (.error .ErrFault, b.2)
  else
    match b.2.urls.find? p with
    | some r => (.ok r, b.2)
    | none => (.error .ErrNoRows, b.2)

/-- The method `SaveURL`. -/
def SQLiteStore.SaveURL (s : SQLiteStore) (shortKey originalURL : String) :
    Option DbError × SQLiteStore :=
  let b := s.begin
  if b.1 then (some .ErrFault, b.2)
  else
    match insertRow b.2.urls shortKey originalURL with
    | none => (some .ErrConstraintUnique, b.2)
    | some urls => (none, { b.2 with urls := urls })

/-- The method `GetURL`. -/
def SQLiteStore.GetURL (s : SQLiteStore) (shortKey : String) :
    Except DbError String × SQLiteStore :=
  let q := s.queryRow (fun r => decide (r.short_key = shortKey))
  (q.1.map UrlRow.original_url, q.2)

/-- The method `GetShortKey`. -/
def SQLiteStore.GetShortKey (s : SQLiteStore) (originalURL : String) :
    Except DbError String × SQLiteStore :=
  let q := s.queryRow (fun r => decide (r.original_url = originalURL))
  (q.1.map UrlRow.short_key, q.2)

/-- The method `KeyExists`. -/
def SQLiteStore.KeyExists (s : SQLiteStore) (shortKey : String) :
    Except DbError Bool × SQLiteStore :=
  let q := s.queryRow (fun r => decide (r.short_key = shortKey))
  match q.1 with
  | .error err =>
    if err = .ErrNoRows then (.ok false, q.2)
    else (.error err, q.2)
  | .ok _ => (.ok true, q.2)

/-! ## internal/api/handler.go -/

/-- The constant `maxCollisionRetries`. -/
def maxCollisionRetries : Nat := 10

abbrev StatusOK : Nat := 200
abbrev StatusCreated : Nat := 201
abbrev StatusMovedPermanently : Nat := 301
abbrev StatusBadRequest : Nat := 400
abbrev StatusNotFound : Nat := 404
abbrev StatusInternalServerError : Nat := 500
abbrev StatusServiceUnavailable : Nat := 503

/-- The type `config.Config`. -/
structure Config where
  AppBaseURL : String
  ServerAddress : String
  DBPath : String
  deriving DecidableEq, Repr

/-- The type `ShortenRequest`. -/
structure ShortenRequest where
  URL : String
  deriving DecidableEq, Repr

/-- The type `ShortenResponse`. -/
structure ShortenResponse where
  ShortURL : String
  deriving DecidableEq, Repr

/-- What a handler writes: `http.Error(w, body, code)`, a JSON encoded
`ShortenResponse` after `WriteHeader(code)`, or the `Location` header and the
status code written by `http.Redirect(w, r, url, code)`. -/
inductive Response where
  | Error (body : String) (code : Nat)
  | JSON (code : Nat) (v : ShortenResponse)
  | Redirect (location : String) (code : Nat)
  deriving DecidableEq, Repr

/-- The status code of a response. -/
def Response.status : Response → Nat
  | .Error _ code => code
  | .JSON code _ => code
  | .Redirect _ code => code

/-- A call made by a handler on the store or on the key generator, with what
the call returned. -/
inductive Call where
  | GetShortKey (originalURL : String) (res : Except DbError String)
  | GenerateShortKey (key : String)
  | KeyExists (shortKey : String) (res : Except DbError Bool)
  | SaveURL (shortKey originalURL : String) (err : Option DbError)
  | GetURL (shortKey : String) (res : Except DbError String)
  deriving DecidableEq

/-- The type `Handler`. -/
structure Handler where
  Store : SQLiteStore
  Config : Config

/-- What one run of a handler leaves behind. -/
structure Run where
  resp : Response
  Store : SQLiteStore
  rand : Rand
  calls : List Call

/-- How the collision handling loop is left: by a `return` inside its body, or
by `break` or the end of the count with the values of `newShortKey` and
`success`. -/
inductive LoopExit where
  | returned (resp : Response)
  | finished (newShortKey : String) (success : Bool)

/-- What one run of the collision handling loop leaves behind; `calls` are the
calls made by the loop. -/
structure LoopRun where
  exit : LoopExit
  Store : SQLiteStore
  rand : Rand
  calls : List Call

/-- The loop `for i := 0; i < maxCollisionRetries; i++`, with `n` the number of
iterations still allowed (`maxCollisionRetries - i`). -/
def collisionLoop (url : String) : Nat → SQLiteStore → Rand → LoopRun
  | 0, s, g => ⟨.finished "" false, s, g, []⟩
  | n + 1, s, g =>
    let k := GenerateShortKey g
    let candidateKey := k.1
    let e := s.KeyExists candidateKey
    match e.1 with
    | .error _ =>
      ⟨.returned (.Error "\x7b\"error\": \"Internal server error\"\x7d" StatusInternalServerError),
        e.2, k.2, [.GenerateShortKey candidateKey, .KeyExists candidateKey e.1]⟩
    | .ok keyExists =>
      if !keyExists then
        let sv := e.2.SaveURL candidateKey url
        match sv.1 with
        | some _ =>
          ⟨.returned (.Error "\x7b\"error\": \"Internal server error\"\x7d" StatusInternalServerError),
            sv.2, k.2,
            [.GenerateShortKey candidateKey, .KeyExists candidateKey e.1,
              .SaveURL candidateKey url sv.1]⟩
        | none =>
          ⟨.finished candidateKey true, sv.2, k.2,
            [.GenerateShortKey candidateKey, .KeyExists candidateKey e.1,
              .SaveURL candidateKey url sv.1]⟩
      else
        let r := collisionLoop url n e.2 k.2
        { r with calls := .GenerateShortKey candidateKey :: .KeyExists candidateKey e.1 :: r.calls }

/-- The method `ShortenURLHandler`.  The argument `body` is the outcome of
`json.NewDecoder(r.Body).Decode(&req)`: `none` when decoding fails. -/
def ShortenURLHandler (h : Handler) (g : Rand) (body : Option ShortenRequest) : Run :=
  match body with
  | none => ⟨.Error "\x7b\"error\": \"Invalid request body\"\x7d" StatusBadRequest, h.Store, g, []⟩
  | some req =>
    if req.URL = "" then
      ⟨.Error "\x7b\"error\": \"URL cannot be empty\"\x7d" StatusBadRequest, h.Store, g, []⟩
    else
      let q := h.Store.GetShortKey req.URL
      match q.1 with
      | .ok existingKey =>
        ⟨.JSON StatusOK ⟨h.Config.AppBaseURL ++ "/" ++ existingKey⟩, q.2, g,
          [.GetShortKey req.URL q.1]⟩
      | .error err =>
        if err ≠ .ErrNoRows then
          ⟨.Error "\x7b\"error\": \"Internal server error\"\x7d" StatusInternalServerError, q.2, g,
            [.GetShortKey req.URL q.1]⟩
        else
          let l := collisionLoop req.URL maxCollisionRetries q.2 g
          match l.exit with
          | .returned resp => ⟨resp, l.Store, l.rand, .GetShortKey req.URL q.1 :: l.calls⟩
          | .finished newShortKey success =>
            if !success then
              ⟨.Error "\x7b\"error\": \"Service unavailable, please try again later\"\x7d"
                StatusServiceUnavailable, l.Store, l.rand, .GetShortKey req.URL q.1 :: l.calls⟩
            else
              ⟨.JSON StatusCreated ⟨h.Config.AppBaseURL ++ "/" ++ newShortKey⟩,
                l.Store, l.rand, .GetShortKey req.URL q.1 :: l.calls⟩

/-! ## Go standard library: the `Location` header written by `http.Redirect` -/

/-- The call `strings.Cut(s, sep)` for a separator of one byte: the part before
the first separator, the part after it, and whether there is one. -/
def cut (sep : Char) : List Char → List Char × List Char × Bool
  | [] => ([], [], false)
  | c :: rest =>
    if c = sep then ([], rest, true)
    else
      let r := cut sep rest
      (c :: r.1, r.2.1, r.2.2)

/-- The split of a string at its last separator (`strings.LastIndex`): the
part before it and the part after it, or `none` without a separator. -/
def cutLast (sep : Char) (s : List Char) : Option (List Char × List Char) :=
  let r := cut sep s.reverse
  if r.2.2 then some (r.2.1.reverse, r.1.reverse) else none

/-- The call `strings.Split(s, sep)` for a separator of one byte. -/
def splitOn (sep : Char) : List Char → List (List Char)
  | [] => [[]]
  | c :: rest =>
    if c = sep then [] :: splitOn sep rest
    else
      match splitOn sep rest with
      | [] => [[c]]
      | piece :: pieces => (c :: piece) :: pieces

/-- The function `stringContainsCTLByte` of net/url. -/
def stringContainsCTLByte (s : List Char) : Bool :=
  s.any (fun c => decide (c.toNat < 32) || decide (c.toNat = 127))

/-- The letters `a-z` and `A-Z`. -/
def isLetter (c : Char) : Bool :=
  (decide (97 ≤ c.toNat) && decide (c.toNat ≤ 122)) ||
    (decide (65 ≤ c.toNat) && decide (c.toNat ≤ 90))

/-- The digits `0-9`. -/
def isDigit (c : Char) : Bool := decide (48 ≤ c.toNat) && decide (c.toNat ≤ 57)

/-- The function `ishex` of net/url. -/
def ishex (c : Char) : Bool :=
  isDigit c || (decide (97 ≤ c.toNat) && decide (c.toNat ≤ 102)) ||
    (decide (65 ≤ c.toNat) && decide (c.toNat ≤ 70))

/-- The scan of `getScheme` of net/url, with `acc` the bytes read so far (empty
exactly when the index is 0) and `raw` the whole string. -/
def getSchemeFrom (raw : List Char) : List Char → List Char → Option (List Char × List Char)
  | _, [] => some ([], raw)
  | acc, c :: rest =>
    if isLetter c then getSchemeFrom raw (acc ++ [c]) rest
    else if isDigit c || decide (c = '+') || decide (c = '-') || decide (c = '.') then
      if acc = [] then some ([], raw) else getSchemeFrom raw (acc ++ [c]) rest
    else if c = ':' then
      if acc = [] then none else some (acc, rest)
    else some ([], raw)

/-- The function `getScheme` of net/url: the scheme and the rest, or `none` for
the error `missing protocol scheme`. -/
def getScheme (raw : List Char) : Option (List Char × List Char) :=
  getSchemeFrom raw [] raw

/-- Whether `unescape` of net/url accepts the string in a mode other than the
host modes: every `%` is followed by two hexadecimal digits. -/
def validEscapes : List Char → Bool
  | [] => true
  | c :: rest =>
    if c = '%' then
      match rest with
      | a :: b :: rest2 => ishex a && ishex b && validEscapes rest2
      | _ => false
    else validEscapes rest

/-- The function `validUserinfo` of net/url. -/
def validUserinfo (s : List Char) : Bool :=
  s.all (fun c => isLetter c || isDigit c || decide (c = Char.ofNat 39) ||
    "-._:~!$&()*+,;=%@".data.contains c)

/-- Whether `parseAuthority` of net/url accepts the user information in front
of the last `@`. -/
def userinfoAccepted (userinfo : List Char) : Bool :=
  validUserinfo userinfo &&
    (if (cut ':' userinfo).2.2 then
      validEscapes (cut ':' userinfo).1 && validEscapes (cut ':' userinfo).2.1
    else validEscapes userinfo)

/-- The part of `parse` of net/url that follows an empty scheme: whether
parsing succeeds with an empty `Host`.  A non-empty host part never gives an
empty `Host`, whether or not `parseHost` accepts it. -/
def relativeRest (rest0 : List Char) : Bool :=
  let rest := (cut '?' rest0).1
  match rest with
  | '/' :: '/' :: '/' :: _ => validEscapes rest
  | '/' :: '/' :: tail =>
    let a := cut '/' tail
    let path := if a.2.2 then '/' :: a.2.1 else []
    match cutLast '@' a.1 with
    | none => decide (a.1 = []) && validEscapes path
    | some (userinfo, host) => decide (host = []) && userinfoAccepted userinfo && validEscapes path
  | '/' :: _ => validEscapes rest
  | _ => !((cut '/' rest).1.contains ':') && validEscapes rest

/-- The function `parse(rawURL, false)` of net/url, as far as `http.Redirect`
looks at it: whether parsing succeeds with an empty `Scheme` and an empty
`Host`. -/
def parseRelative (u : List Char) : Bool :=
  if stringContainsCTLByte u then false
  else if u = ['*'] then true
  else
    match getScheme u with
    | none => false
    | some (scheme, rest) => if scheme = [] then relativeRest rest else false

/-- The test `err == nil && u.Scheme == "" && u.Host == ""` of `http.Redirect`
on the result of `url.Parse`, which parses the part before the first `#` and
then unescapes the fragment when there is one. -/
def relativeTarget (url : List Char) : Bool :=
  parseRelative (cut '#' url).1 &&
    (decide ((cut '#' url).2.1 = []) || validEscapes (cut '#' url).2.1)

/-- The directory returned by `path.Split`: the path up to and including its
last slash. -/
def pathSplitDir (p : List Char) : List Char :=
  match cutLast '/' p with
  | some (dir, _) => dir ++ ['/']
  | none => []

/-- One path element of `path.Clean`, with the elements kept so far, the last
one first: empty and `.` elements are dropped, `..` removes the element before
it, is dropped at the root, and is kept in front of a path that is not
rooted. -/
def cleanStep (rooted : Bool) (kept : List (List Char)) (e : List Char) : List (List Char) :=
  if e = [] ∨ e = ['.'] then kept
  else if e = ['.', '.'] then
    match kept with
    | top :: below => if top = ['.', '.'] then e :: kept else below
    | [] => if rooted then [] else [e]
  else e :: kept

/-- The call `strings.Join(elems, "/")`. -/
def joinSlash : List (List Char) → List Char
  | [] => []
  | [e] => e
  | e :: rest => e ++ '/' :: joinSlash rest

/-- The function `path.Clean`. -/
def pathClean (p : List Char) : List Char :=
  match p with
  | '/' :: _ => '/' :: joinSlash (((splitOn '/' p).foldl (cleanStep true) []).reverse)
  | _ =>
    match ((splitOn '/' p).foldl (cleanStep false) []).reverse with
    | [] => ['.']
    | elems => joinSlash elems

/-- The body of `if u.Scheme == "" && u.Host == ""` in `http.Redirect`: the
target made absolute against the request path `oldpath` and cleaned. -/
def rewriteRelative (oldpath url : List Char) : List Char :=
  let oldpath := if oldpath = [] then ['/'] else oldpath
  let url :=
    match url with
    | '/' :: _ => url
    | _ => pathSplitDir oldpath ++ url
  let q := cut '?' url
  let query := if q.2.2 then '?' :: q.2.1 else []
  let trailing := decide (q.1.getLast? = some '/')
  let cleaned := pathClean q.1
  let cleaned :=
    if trailing && !decide (cleaned.getLast? = some '/') then cleaned ++ ['/'] else cleaned
  cleaned ++ query

/-- The bytes of the UTF-8 encoding of a character. -/
def utf8Bytes (c : Char) : List Nat :=
  let v := c.toNat
  if v < 128 then [v]
  else if v < 2048 then [192 + v / 64, 128 + v % 64]
  else if v < 65536 then [224 + v / 4096, 128 + v / 64 % 64, 128 + v % 64]
  else [240 + v / 262144, 128 + v / 4096 % 64, 128 + v / 64 % 64, 128 + v % 64]

/-- A hexadecimal digit of `strconv.AppendInt(b, n, 16)`. -/
def hexDigit (n : Nat) : Char := "0123456789abcdef".data.getD n '0'

/-- The escape `%xx` of one byte. -/
def hexByte (b : Nat) : List Char := ['%', hexDigit (b / 16), hexDigit (b % 16)]

/-- The escapes of a list of bytes. -/
def hexBytes : List Nat → List Char
  | [] => []
  | b :: rest => hexByte b ++ hexBytes rest

/-- The function `hexEscapeNonASCII` of net/http: every byte from 128 on is
replaced by its escape. -/
def hexEscapeNonASCII : List Char → List Char
  | [] => []
  | c :: rest =>
    if c.toNat < 128 then c :: hexEscapeNonASCII rest
    else hexBytes (utf8Bytes c) ++ hexEscapeNonASCII rest

/-- The value `http.Redirect(w, r, url, code)` sets for the `Location` header
of the response to a request with `r.URL.Path = oldpath`. -/
def redirectLocation (oldpath url : String) : String :=
  String.mk (hexEscapeNonASCII
    (if relativeTarget url.data then rewriteRelative oldpath.data url.data else url.data))

/-- Whether a target starts with a scheme, as `getScheme` of net/url reads it
in the part before the first `#`. -/
def hasScheme (url : String) : Bool :=
  match getScheme (cut '#' url.data).1 with
  | some (scheme, _) => decide (scheme ≠ [])
  | none => false

/-- Whether every character of a string is a visible ASCII character: no
control character, no space, no byte from 128 on. -/
def isVisibleASCII (url : String) : Bool :=
  url.data.all (fun c => decide (33 ≤ c.toNat) && decide (c.toNat ≤ 126))

/-- What the redirect handler reads of `*http.Request`: `r.URL.Path`, which
`http.Redirect` reads, and `r.PathValue("shortKey")`.  The route of the
handler serves requests whose path is a slash followed by the key. -/
structure Request where
  Path : String
  shortKey : String
  deriving DecidableEq, Repr

/-- The method `RedirectHandler`. -/
def RedirectHandler (h : Handler) (g : Rand) (r : Request) : Run :=
  let shortKey := r.shortKey
  let q := h.Store.GetURL shortKey
  match q.1 with
  | .error err =>
    if err = .ErrNoRows then
      ⟨.Error "Not Found" StatusNotFound, q.2, g, [.GetURL shortKey q.1]⟩
    else
      ⟨.Error "Internal Server Error" StatusInternalServerError, q.2, g,
        [.GetURL shortKey q.1]⟩
  | .ok originalURL =>
    ⟨.Redirect (redirectLocation r.Path originalURL) StatusMovedPermanently, q.2, g,
      [.GetURL shortKey q.1]⟩

/-- Whether a call draws a candidate key. -/
def Call.isDraw : Call → Bool
  | .GenerateShortKey _ => true
  | _ => false

/-- Whether a call is a call of `SaveURL`. -/
def Call.isSave : Call → Bool
  | .SaveURL _ _ _ => true
  | _ => false

/-- Whether a call ended with an error the handler does not take for an
answer: `GetShortKey` with an error other than `sql.ErrNoRows`, `KeyExists`
with an error, `SaveURL` with an error. -/
def Call.failed : Call → Bool
  | .GetShortKey _ (.error err) => decide (err ≠ .ErrNoRows)
  | .KeyExists _ (.error _) => true
  | .SaveURL _ _ (some _) => true
  | _ => false

/-- Whether a call is anything but a `KeyExists` call that found the key
free or ended with an error. -/
def Call.reportsTaken : Call → Bool
  | .KeyExists _ (.ok true) => true
  | .KeyExists _ _ => false
  | _ => true

/-- Whether a call ended with a storage fault: `GetShortKey` with an error
other than `sql.ErrNoRows`, `KeyExists` with an error, `SaveURL` with an error
other than the violation of the `UNIQUE` constraint. -/
def Call.faulted : Call → Bool
  | .GetShortKey _ (.error err) => decide (err ≠ .ErrNoRows)
  | .KeyExists _ (.error _) => true
  | .SaveURL _ _ (some err) => decide (err ≠ .ErrConstraintUnique)
  | _ => false

/-- No other connection writes while the script runs. -/
abbrev Sequential (env : List Env) : Prop := ∀ e ∈ env, e.commits = []

/-- No statement of the script ends with an infrastructure error. -/
abbrev Healthy (env : List Env) : Prop := ∀ e ∈ env, e.fault = false

/-- No two rows share a `short_key`. -/
abbrev KeysUnique (urls : List UrlRow) : Prop := (urls.map UrlRow.short_key).Nodup

/-- No two rows share an `original_url`. -/
abbrev UrlsUnique (urls : List UrlRow) : Prop := (urls.map UrlRow.original_url).Nodup

/-- The configuration `config.New` yields when no environment variable is
set. -/
def defaultConfig : Config := ⟨"http://localhost:8080", ":8080", "./data/urls.db"⟩

/-- A random source for the worked examples: its i-th raw output is
`7 * i + 3`. -/
def sampleRand : Rand := ⟨fun i => 7 * i + 3, 0⟩

/-- A random source for the worked examples whose raw outputs are all zero, so
that every key it yields is `aaaaaaa`. -/
def stuckRand : Rand := ⟨fun _ => 0, 0⟩

/-- A sequence of shorten requests served one after the other by the same
process: each run starts from the store and the generator the previous one
left. -/
def serveShorten (cfg : Config) : SQLiteStore → Rand → List (Option ShortenRequest) →
    SQLiteStore × Rand
  | s, g, [] => (s, g)
  | s, g, body :: rest =>
    let r := ShortenURLHandler ⟨s, cfg⟩ g body
    serveShorten cfg r.Store r.rand rest

/-! ## The key generator -/

theorem fillKey_length (n : Nat) : ∀ g : Rand, (fillKey n g).1.length = n := by
  induction n with
  | zero => intro g; rfl
  | succ n ih => intro g; simp [fillKey, ih]

theorem fillKey_mem (n : Nat) : ∀ g : Rand, ∀ c ∈ (fillKey n g).1, c ∈ charset.data := by
  induction n with
  | zero => intro g c hc; simp [fillKey] at hc
  | succ n ih =>
    intro g c hc
    simp only [fillKey, List.mem_cons] at hc
    rcases hc with rfl | hc
    · exact List.get_mem _ _ _
    · exact ih _ c hc

theorem fillKey_rand (n : Nat) : ∀ g : Rand, (fillKey n g).2 = ⟨g.raw, g.pos + n⟩ := by
  induction n with
  | zero => intro g; rfl
  | succ n ih =>
    intro g
    simp only [fillKey, ih, Rand.N]
    congr 1
    omega

theorem fillKey_getElem (n : Nat) : ∀ (g : Rand) (i : Nat), i < n →
    (fillKey n g).1[i]? = charset.data[g.raw (g.pos + i) % 62]? := by
  induction n with
  | zero => intro g i hi; omega
  | succ n ih =>
    intro g i hi
    cases i with
    | zero =>
      have hlt : g.raw g.pos % 62 < charset.data.length := Nat.mod_lt _ (by decide)
      simp only [fillKey, Rand.N, List.getElem?_cons_zero, Nat.add_zero]
      rw [List.getElem?_eq_getElem hlt]
      rfl
    | succ j =>
      have hj := ih (g.N charset.data.length (by decide)).2 j (by omega)
      have hpos : g.pos + 1 + j = g.pos + (j + 1) := by omega
      simp only [Rand.N, hpos] at hj
      simp only [fillKey, List.getElem?_cons_succ]
      exact hj

theorem GenerateShortKey_rand (g : Rand) :
    (GenerateShortKey g).2 = ⟨g.raw, g.pos + keyLength⟩ := fillKey_rand keyLength g

/-! ## The store -/

theorem insertRow_eq_some {urls urls2 : List UrlRow} {k u : String}
    (h : insertRow urls k u = some urls2) :
    urls2 = urls ++ [⟨k, u⟩] ∧ ∀ r ∈ urls, r.short_key ≠ k := by
  unfold insertRow at h
  split at h
  · cases h
  · rename_i hany
    simp only [Option.some.injEq] at h
    refine ⟨h.symm, ?_⟩
    intro r hr hk
    apply hany
    simp only [List.any_eq_true, decide_eq_true_eq]
    exact ⟨r, hr, hk⟩

theorem insertRow_eq_none {urls : List UrlRow} {k u : String}
    (h : insertRow urls k u = none) : ∃ r ∈ urls, r.short_key = k := by
  unfold insertRow at h
  split at h
  · rename_i hany
    simpa only [List.any_eq_true, decide_eq_true_eq] using hany
  · cases h

theorem keysUnique_append {urls : List UrlRow} {k u : String}
    (hn : KeysUnique urls) (hk : ∀ r ∈ urls, r.short_key ≠ k) :
    KeysUnique (urls ++ [⟨k, u⟩]) := by
  unfold KeysUnique
  rw [List.map_append, List.nodup_append]
  refine ⟨hn, by simp, ?_⟩
  intro a ha hb
  simp only [List.map_cons, List.map_nil, List.mem_singleton] at hb
  obtain ⟨r, hr, rfl⟩ := List.mem_map.1 ha
  exact hk r hr hb

theorem commitRow_keysUnique {urls : List UrlRow} (r : UrlRow) (hn : KeysUnique urls) :
    KeysUnique (commitRow urls r) := by
  unfold commitRow
  cases h : insertRow urls r.short_key r.original_url with
  | none => simpa using hn
  | some urls2 =>
    obtain ⟨rfl, hk⟩ := insertRow_eq_some h
    simpa using keysUnique_append hn hk

theorem foldl_commitRow_keysUnique (commits : List UrlRow) :
    ∀ urls : List UrlRow, KeysUnique urls → KeysUnique (commits.foldl commitRow urls) := by
  induction commits with
  | nil => intro urls hn; simpa using hn
  | cons r rest ih =>
    intro urls hn
    simpa using ih _ (commitRow_keysUnique r hn)

theorem begin_keysUnique (s : SQLiteStore) (hn : KeysUnique s.urls) :
    KeysUnique s.begin.2.urls := by
  unfold SQLiteStore.begin
  cases h : s.env with
  | nil => simpa using hn
  | cons e rest => simpa using foldl_commitRow_keysUnique e.commits _ hn

theorem begin_env_subset (s : SQLiteStore) : ∀ e ∈ s.begin.2.env, e ∈ s.env := by
  unfold SQLiteStore.begin
  cases h : s.env with
  | nil => intro e he; simp [h] at he
  | cons e0 rest => intro e he; exact List.mem_cons_of_mem _ he

theorem begin_urls_of_sequential (s : SQLiteStore) (hseq : Sequential s.env) :
    s.begin.2.urls = s.urls := by
  unfold SQLiteStore.begin
  cases h : s.env with
  | nil => rfl
  | cons e rest =>
    have : e.commits = [] := hseq e (by simp [h])
    simp [this]

theorem begin_fault_of_healthy (s : SQLiteStore) (hh : Healthy s.env) :
    s.begin.1 = false := by
  unfold SQLiteStore.begin
  cases h : s.env with
  | nil => rfl
  | cons e rest => exact hh e (by simp [h])

theorem queryRow_store (s : SQLiteStore) (p : UrlRow → Bool) :
    (s.queryRow p).2 = s.begin.2 := by
  unfold SQLiteStore.queryRow
  dsimp only
  split
  · rfl
  · split <;> rfl

theorem GetShortKey_store (s : SQLiteStore) (u : String) :
    (s.GetShortKey u).2 = s.begin.2 := queryRow_store s _

theorem GetURL_store (s : SQLiteStore) (k : String) :
    (s.GetURL k).2 = s.begin.2 := queryRow_store s _

theorem KeyExists_store (s : SQLiteStore) (k : String) :
    (s.KeyExists k).2 = s.begin.2 := by
  unfold SQLiteStore.KeyExists
  dsimp only
  split
  · split <;> exact queryRow_store s _
  · exact queryRow_store s _

theorem SaveURL_keysUnique (s : SQLiteStore) (k u : String) (hn : KeysUnique s.urls) :
    KeysUnique (s.SaveURL k u).2.urls := by
  have hb := begin_keysUnique s hn
  unfold SQLiteStore.SaveURL
  dsimp only
  split
  · exact hb
  · split
    · exact hb
    · rename_i urls2 hins
      obtain ⟨rfl, hk⟩ := insertRow_eq_some hins
      exact keysUnique_append hb hk

theorem SaveURL_store_eq (s : SQLiteStore) (k u : String) :
    ((s.SaveURL k u).1 = some .ErrFault ∧ s.begin.1 = true ∧ (s.SaveURL k u).2 = s.begin.2) ∨
    ((s.SaveURL k u).1 = some .ErrConstraintUnique ∧ s.begin.1 = false ∧
      (s.SaveURL k u).2 = s.begin.2 ∧ ∃ r ∈ s.begin.2.urls, r.short_key = k) ∨
    ((s.SaveURL k u).1 = none ∧ s.begin.1 = false ∧
      (s.SaveURL k u).2 = ⟨s.begin.2.urls ++ [⟨k, u⟩], s.begin.2.env⟩ ∧
      ∀ r ∈ s.begin.2.urls, r.short_key ≠ k) := by
  unfold SQLiteStore.SaveURL
  dsimp only
  cases hb : s.begin.1 with
  | true => simp
  | false =>
    cases hins : insertRow s.begin.2.urls k u with
    | none => simpa using insertRow_eq_none hins
    | some urls2 =>
      obtain ⟨rfl, hk⟩ := insertRow_eq_some hins
      simpa using hk

/-! ## The collision handling loop -/

theorem collisionLoop_keysUnique (u : String) :
    ∀ (n : Nat) (s : SQLiteStore) (g : Rand), KeysUnique s.urls →
      KeysUnique (collisionLoop u n s g).Store.urls := by
  intro n
  induction n with
  | zero => intro s g hn; simpa [collisionLoop] using hn
  | succ n ih =>
    intro s g hn
    have hb : KeysUnique (s.KeyExists (GenerateShortKey g).1).2.urls := by
      rw [KeyExists_store]; exact begin_keysUnique s hn
    unfold collisionLoop
    dsimp only
    split
    · exact hb
    · split
      · split
        · exact SaveURL_keysUnique _ _ _ hb
        · exact SaveURL_keysUnique _ _ _ hb
      · exact ih _ _ hb

theorem ShortenURLHandler_keysUnique (h : Handler) (g : Rand) (body : Option ShortenRequest)
    (hn : KeysUnique h.Store.urls) : KeysUnique (ShortenURLHandler h g body).Store.urls := by
  unfold ShortenURLHandler
  split
  · exact hn
  · rename_i req
    have hb : KeysUnique (h.Store.GetShortKey req.URL).2.urls := by
      rw [GetShortKey_store]; exact begin_keysUnique _ hn
    dsimp only
    split
    · exact hn
    · split
      · exact hb
      · split
        · exact hb
        · have hl := collisionLoop_keysUnique req.URL maxCollisionRetries _ g hb
          split
          · exact hl
          · split <;> exact hl

theorem serveShorten_keysUnique (cfg : Config) (reqs : List (Option ShortenRequest)) :
    ∀ (s : SQLiteStore) (g : Rand), KeysUnique s.urls →
      KeysUnique (serveShorten cfg s g reqs).1.urls := by
  induction reqs with
  | nil => intro s g hn; simpa [serveShorten] using hn
  | cons body rest ih =>
    intro s g hn
    unfold serveShorten
    exact ih _ _ (ShortenURLHandler_keysUnique ⟨s, cfg⟩ g body hn)

theorem queryRow_fst (s : SQLiteStore) (p : UrlRow → Bool) :
    (s.queryRow p).1 =
      if s.begin.1 then .error .ErrFault
      else match s.begin.2.urls.find? p with
        | some r => .ok r
        | none => .error .ErrNoRows := by
  unfold SQLiteStore.queryRow
  dsimp only
  split
  · rfl
  · split <;> simp [*]

theorem GetShortKey_noRows {s : SQLiteStore} {u : String}
    (h : (s.GetShortKey u).1 = .error .ErrNoRows) :
    s.begin.1 = false ∧ ∀ r ∈ s.begin.2.urls, r.original_url ≠ u := by
  have hq := queryRow_fst s (fun r => decide (r.original_url = u))
  unfold SQLiteStore.GetShortKey at h
  dsimp only at h
  rw [hq] at h
  cases hb : s.begin.1 with
  | true => simp [hb, Except.map] at h
  | false =>
    refine ⟨rfl, ?_⟩
    cases hf : s.begin.2.urls.find? (fun r => decide (r.original_url = u)) with
    | none =>
      intro r hr
      have := List.find?_eq_none.1 hf r hr
      simpa using this
    | some row => simp [hb, hf, Except.map] at h

theorem GetShortKey_of_find {s : SQLiteStore} {u : String} {row : UrlRow}
    (hb : s.begin.1 = false)
    (hf : s.begin.2.urls.find? (fun r => decide (r.original_url = u)) = some row) :
    (s.GetShortKey u).1 = .ok row.short_key := by
  have hq := queryRow_fst s (fun r => decide (r.original_url = u))
  unfold SQLiteStore.GetShortKey
  dsimp only
  rw [hq]
  simp [hb, hf, Except.map]

theorem GetURL_of_find {s : SQLiteStore} {k : String} {row : UrlRow}
    (hb : s.begin.1 = false)
    (hf : s.begin.2.urls.find? (fun r => decide (r.short_key = k)) = some row) :
    (s.GetURL k).1 = .ok row.original_url := by
  have hq := queryRow_fst s (fun r => decide (r.short_key = k))
  unfold SQLiteStore.GetURL
  dsimp only
  rw [hq]
  simp [hb, hf, Except.map]

theorem find_append_fresh (urls : List UrlRow) (p : UrlRow → Bool) (row : UrlRow)
    (hfresh : ∀ r ∈ urls, p r = false) (hp : p row = true) :
    (urls ++ [row]).find? p = some row := by
  induction urls with
  | nil => simp [List.find?, hp]
  | cons r rest ih =>
    have h1 : p r = false := hfresh r (by simp)
    have h2 := ih (fun x hx => hfresh x (List.mem_cons_of_mem _ hx))
    simp [List.find?, h1, h2]

theorem append_left_cancel_string {a b c : String} (h : a ++ b = a ++ c) : b = c := by
  have hd := congrArg String.data h
  simp only [String.data_append] at hd
  exact String.ext (List.append_cancel_left hd)

theorem KeyExists_fst (s : SQLiteStore) (k : String) :
    (s.KeyExists k).1 =
      if s.begin.1 then .error .ErrFault
      else .ok (s.begin.2.urls.any (fun r => decide (r.short_key = k))) := by
  have hq := queryRow_fst s (fun r => decide (r.short_key = k))
  unfold SQLiteStore.KeyExists
  dsimp only
  rw [hq]
  cases hb : s.begin.1 with
  | true => simp
  | false =>
    cases hf : s.begin.2.urls.find? (fun r => decide (r.short_key = k)) with
    | none =>
      have hnone := List.find?_eq_none.1 hf
      have hany : s.begin.2.urls.any (fun r => decide (r.short_key = k)) = false := by
        rw [List.any_eq_false]
        intro r hr
        exact hnone r hr
      simp [hany]
    | some row =>
      have hmem := List.mem_of_find?_eq_some hf
      have hp := List.find?_some hf
      have hany : s.begin.2.urls.any (fun r => decide (r.short_key = k)) = true := by
        rw [List.any_eq_true]
        exact ⟨row, hmem, hp⟩
      simp [hany]

theorem collisionLoop_step (u : String) (n : Nat) (s : SQLiteStore) (g : Rand) :
    (s.begin.1 = true ∧
      collisionLoop u (n + 1) s g =
        ⟨.returned (.Error "\x7b\"error\": \"Internal server error\"\x7d" StatusInternalServerError),
          s.begin.2, (GenerateShortKey g).2,
          [.GenerateShortKey (GenerateShortKey g).1,
            .KeyExists (GenerateShortKey g).1 (.error .ErrFault)]⟩) ∨
    (s.begin.1 = false ∧ (∃ r ∈ s.begin.2.urls, r.short_key = (GenerateShortKey g).1) ∧
      collisionLoop u (n + 1) s g =
        ⟨(collisionLoop u n s.begin.2 (GenerateShortKey g).2).exit,
          (collisionLoop u n s.begin.2 (GenerateShortKey g).2).Store,
          (collisionLoop u n s.begin.2 (GenerateShortKey g).2).rand,
          .GenerateShortKey (GenerateShortKey g).1 ::
            .KeyExists (GenerateShortKey g).1 (.ok true) ::
            (collisionLoop u n s.begin.2 (GenerateShortKey g).2).calls⟩) ∨
    (s.begin.1 = false ∧ (∀ r ∈ s.begin.2.urls, r.short_key ≠ (GenerateShortKey g).1) ∧
      s.begin.2.begin.1 = true ∧
      collisionLoop u (n + 1) s g =
        ⟨.returned (.Error "\x7b\"error\": \"Internal server error\"\x7d" StatusInternalServerError),
          s.begin.2.begin.2, (GenerateShortKey g).2,
          [.GenerateShortKey (GenerateShortKey g).1,
            .KeyExists (GenerateShortKey g).1 (.ok false),
            .SaveURL (GenerateShortKey g).1 u (some .ErrFault)]⟩) ∨
    (s.begin.1 = false ∧ (∀ r ∈ s.begin.2.urls, r.short_key ≠ (GenerateShortKey g).1) ∧
      s.begin.2.begin.1 = false ∧
      (∃ r ∈ s.begin.2.begin.2.urls, r.short_key = (GenerateShortKey g).1) ∧
      collisionLoop u (n + 1) s g =
        ⟨.returned (.Error "\x7b\"error\": \"Internal server error\"\x7d" StatusInternalServerError),
          s.begin.2.begin.2, (GenerateShortKey g).2,
          [.GenerateShortKey (GenerateShortKey g).1,
            .KeyExists (GenerateShortKey g).1 (.ok false),
            .SaveURL (GenerateShortKey g).1 u (some .ErrConstraintUnique)]⟩) ∨
    (s.begin.1 = false ∧ (∀ r ∈ s.begin.2.urls, r.short_key ≠ (GenerateShortKey g).1) ∧
      s.begin.2.begin.1 = false ∧
      (∀ r ∈ s.begin.2.begin.2.urls, r.short_key ≠ (GenerateShortKey g).1) ∧
      collisionLoop u (n + 1) s g =
        ⟨.finished (GenerateShortKey g).1 true,
          ⟨s.begin.2.begin.2.urls ++ [⟨(GenerateShortKey g).1, u⟩], s.begin.2.begin.2.env⟩,
          (GenerateShortKey g).2,
          [.GenerateShortKey (GenerateShortKey g).1,
            .KeyExists (GenerateShortKey g).1 (.ok false),
            .SaveURL (GenerateShortKey g).1 u none]⟩) := by
  have hke := KeyExists_fst s (GenerateShortKey g).1
  have hks := KeyExists_store s (GenerateShortKey g).1
  rw [collisionLoop]
  dsimp only
  rw [hks, hke]
  cases hb : s.begin.1 with
  | true => left; simp
  | false =>
    right
    cases hany : s.begin.2.urls.any (fun r => decide (r.short_key = (GenerateShortKey g).1)) with
    | true =>
      left
      have hex : ∃ r ∈ s.begin.2.urls, r.short_key = (GenerateShortKey g).1 := by
        simpa only [List.any_eq_true, decide_eq_true_eq] using hany
      refine ⟨rfl, hex, ?_⟩
      simp
    | false =>
      right
      have hall : ∀ r ∈ s.begin.2.urls, r.short_key ≠ (GenerateShortKey g).1 := by
        intro r hr
        have := List.any_eq_false.1 hany r hr
        simpa using this
      rcases SaveURL_store_eq s.begin.2 (GenerateShortKey g).1 u with h | h | h
      · left
        obtain ⟨h1, h2, h3⟩ := h
        refine ⟨rfl, hall, h2, ?_⟩
        simp [h1, h3]
      · right; left
        obtain ⟨h1, h2, h3, h4⟩ := h
        refine ⟨rfl, hall, h2, h4, ?_⟩
        simp [h1, h3]
      · right; right
        obtain ⟨h1, h2, h3, h4⟩ := h
        refine ⟨rfl, hall, h2, h4, ?_⟩
        simp [h1, h3]

theorem GetShortKey_fst (s : SQLiteStore) (u : String) :
    (s.GetShortKey u).1 =
      if s.begin.1 then .error .ErrFault
      else match s.begin.2.urls.find? (fun r => decide (r.original_url = u)) with
        | some r => .ok r.short_key
        | none => .error .ErrNoRows := by
  have hq := queryRow_fst s (fun r => decide (r.original_url = u))
  unfold SQLiteStore.GetShortKey
  dsimp only
  rw [hq]
  cases hb : s.begin.1 with
  | true => simp [Except.map]
  | false =>
    cases hf : s.begin.2.urls.find? (fun r => decide (r.original_url = u)) with
    | none => simp [Except.map]
    | some row => simp [Except.map]

theorem collisionLoop_env_subset (u : String) :
    ∀ (n : Nat) (s : SQLiteStore) (g : Rand),
      ∀ e ∈ (collisionLoop u n s g).Store.env, e ∈ s.env := by
  intro n
  induction n with
  | zero => intro s g e he; simpa [collisionLoop] using he
  | succ n ih =>
    intro s g e he
    have hb := begin_env_subset s
    have hbb := begin_env_subset s.begin.2
    rcases collisionLoop_step u n s g with h | h | h | h | h
    · rw [h.2] at he; exact hb e he
    · rw [h.2.2] at he; exact hb e (ih _ _ e he)
    · rw [h.2.2.2] at he; exact hb e (hbb e he)
    · rw [h.2.2.2.2] at he; exact hb e (hbb e he)
    · rw [h.2.2.2.2] at he; exact hb e (hbb e he)

theorem collisionLoop_returned (u : String) :
    ∀ (n : Nat) (s : SQLiteStore) (g : Rand) (resp : Response),
      (collisionLoop u n s g).exit = .returned resp →
        resp = .Error "\x7b\"error\": \"Internal server error\"\x7d" StatusInternalServerError := by
  intro n
  induction n with
  | zero => intro s g resp he; simp [collisionLoop] at he
  | succ n ih =>
    intro s g resp he
    rcases collisionLoop_step u n s g with h | h | h | h | h
    · rw [h.2] at he; simpa using he.symm
    · rw [h.2.2] at he; exact ih _ _ resp he
    · rw [h.2.2.2] at he; simpa using he.symm
    · rw [h.2.2.2.2] at he; simpa using he.symm
    · rw [h.2.2.2.2] at he; simp at he

theorem collisionLoop_urls (u : String) :
    ∀ (n : Nat) (s : SQLiteStore) (g : Rand), Sequential s.env →
      (∃ k, (collisionLoop u n s g).exit = .finished k true ∧
        (collisionLoop u n s g).Store.urls = s.urls ++ [⟨k, u⟩] ∧
        ∀ r ∈ s.urls, r.short_key ≠ k) ∨
      ((∀ k, (collisionLoop u n s g).exit ≠ .finished k true) ∧
        (collisionLoop u n s g).Store.urls = s.urls) := by
  intro n
  induction n with
  | zero => intro s g _; right; simp [collisionLoop]
  | succ n ih =>
    intro s g hseq
    have hu1 : s.begin.2.urls = s.urls := begin_urls_of_sequential s hseq
    have hseq1 : Sequential s.begin.2.env := fun e he => hseq e (begin_env_subset s e he)
    have hu2 : s.begin.2.begin.2.urls = s.urls := by
      rw [begin_urls_of_sequential s.begin.2 hseq1, hu1]
    rcases collisionLoop_step u n s g with h | h | h | h | h
    · right; rw [h.2]; simp [hu1]
    · rw [h.2.2]
      rcases ih s.begin.2 (GenerateShortKey g).2 hseq1 with ⟨k, h1, h2, h3⟩ | ⟨h1, h2⟩
      · left; exact ⟨k, h1, by rw [h2, hu1], by rw [← hu1]; exact h3⟩
      · right; exact ⟨h1, by rw [h2, hu1]⟩
    · right; rw [h.2.2.2]; simp [hu2]
    · right; rw [h.2.2.2.2]; simp [hu2]
    · left
      rw [h.2.2.2.2]
      refine ⟨(GenerateShortKey g).1, rfl, by simp [hu2], ?_⟩
      rw [← hu1]
      exact h.2.1

theorem ShortenURLHandler_step (h : Handler) (g : Rand) (req : ShortenRequest)
    (hu : req.URL ≠ "") :
    (h.Store.begin.1 = true ∧
      ShortenURLHandler h g (some req) =
        ⟨.Error "\x7b\"error\": \"Internal server error\"\x7d" StatusInternalServerError,
          h.Store.begin.2, g, [.GetShortKey req.URL (.error .ErrFault)]⟩) ∨
    (h.Store.begin.1 = false ∧
      ∃ row, h.Store.begin.2.urls.find? (fun r => decide (r.original_url = req.URL)) = some row ∧
        ShortenURLHandler h g (some req) =
          ⟨.JSON StatusOK ⟨h.Config.AppBaseURL ++ "/" ++ row.short_key⟩,
            h.Store.begin.2, g, [.GetShortKey req.URL (.ok row.short_key)]⟩) ∨
    (h.Store.begin.1 = false ∧
      (∀ r ∈ h.Store.begin.2.urls, r.original_url ≠ req.URL) ∧
      ShortenURLHandler h g (some req) =
        ⟨match (collisionLoop req.URL maxCollisionRetries h.Store.begin.2 g).exit with
          | .returned resp => resp
          | .finished newShortKey success =>
            if success then .JSON StatusCreated ⟨h.Config.AppBaseURL ++ "/" ++ newShortKey⟩
            else .Error "\x7b\"error\": \"Service unavailable, please try again later\"\x7d"
              StatusServiceUnavailable,
          (collisionLoop req.URL maxCollisionRetries h.Store.begin.2 g).Store,
          (collisionLoop req.URL maxCollisionRetries h.Store.begin.2 g).rand,
          .GetShortKey req.URL (.error .ErrNoRows) ::
            (collisionLoop req.URL maxCollisionRetries h.Store.begin.2 g).calls⟩) := by
  have hq := GetShortKey_fst h.Store req.URL
  have hs := GetShortKey_store h.Store req.URL
  unfold ShortenURLHandler
  simp only [hu, if_false]
  rw [hs, hq]
  cases hb : h.Store.begin.1 with
  | true => left; simp
  | false =>
    right
    cases hf : h.Store.begin.2.urls.find? (fun r => decide (r.original_url = req.URL)) with
    | some row => left; exact ⟨rfl, row, rfl, by simp⟩
    | none =>
      right
      have hall : ∀ r ∈ h.Store.begin.2.urls, r.original_url ≠ req.URL := by
        intro r hr
        have := List.find?_eq_none.1 hf r hr
        simpa using this
      refine ⟨rfl, hall, ?_⟩
      cases hx : (collisionLoop req.URL maxCollisionRetries h.Store.begin.2 g).exit with
      | returned resp => simp [hx]
      | finished k success => cases success <;> simp [hx]

theorem ShortenURLHandler_env_subset (h : Handler) (g : Rand) (body : Option ShortenRequest) :
    ∀ e ∈ (ShortenURLHandler h g body).Store.env, e ∈ h.Store.env := by
  intro e he
  cases body with
  | none => simpa [ShortenURLHandler] using he
  | some req =>
    by_cases hu : req.URL = ""
    · simpa [ShortenURLHandler, hu] using he
    · have hb := begin_env_subset h.Store
      rcases ShortenURLHandler_step h g req hu with hs | hs | hs
      · rw [hs.2] at he; exact hb e he
      · obtain ⟨_, row, _, hr⟩ := hs
        rw [hr] at he; exact hb e he
      · rw [hs.2.2] at he
        exact hb e (collisionLoop_env_subset _ _ _ _ e he)

theorem ShortenURLHandler_hit (h : Handler) (g : Rand) (req : ShortenRequest) (row : UrlRow)
    (hu : req.URL ≠ "") (hb : h.Store.begin.1 = false)
    (hf : h.Store.begin.2.urls.find? (fun r => decide (r.original_url = req.URL)) = some row) :
    ShortenURLHandler h g (some req) =
      ⟨.JSON StatusOK ⟨h.Config.AppBaseURL ++ "/" ++ row.short_key⟩,
        h.Store.begin.2, g, [.GetShortKey req.URL (.ok row.short_key)]⟩ := by
  rcases ShortenURLHandler_step h g req hu with hs | hs | hs
  · rw [hs.1] at hb; cases hb
  · obtain ⟨_, row2, hf2, hr⟩ := hs
    rw [hf] at hf2
    cases hf2
    exact hr
  · have hmem := List.mem_of_find?_eq_some hf
    have hp := List.find?_some hf
    exact absurd (by simpa using hp) (hs.2.1 row hmem)

theorem ShortenURLHandler_outcome (h : Handler) (g : Rand) (body : Option ShortenRequest)
    (hseq : Sequential h.Store.env) :
    ((ShortenURLHandler h g body).Store.urls = h.Store.urls ∧
      ((∃ b c, (ShortenURLHandler h g body).resp = .Error b c) ∨
        (∃ req row, body = some req ∧ req.URL ≠ "" ∧
          h.Store.urls.find? (fun r => decide (r.original_url = req.URL)) = some row ∧
          (ShortenURLHandler h g body).resp =
            .JSON StatusOK ⟨h.Config.AppBaseURL ++ "/" ++ row.short_key⟩))) ∨
    (∃ req k, body = some req ∧ req.URL ≠ "" ∧
      (ShortenURLHandler h g body).resp =
        .JSON StatusCreated ⟨h.Config.AppBaseURL ++ "/" ++ k⟩ ∧
      (ShortenURLHandler h g body).Store.urls = h.Store.urls ++ [⟨k, req.URL⟩] ∧
      (∀ x ∈ h.Store.urls, x.short_key ≠ k) ∧
      (∀ x ∈ h.Store.urls, x.original_url ≠ req.URL)) := by
  cases body with
  | none => left; simp [ShortenURLHandler]
  | some req =>
    by_cases hu : req.URL = ""
    · left; simp [ShortenURLHandler, hu]
    · have hu1 : h.Store.begin.2.urls = h.Store.urls := begin_urls_of_sequential _ hseq
      have hseq1 : Sequential h.Store.begin.2.env :=
        fun e he => hseq e (begin_env_subset _ e he)
      rcases ShortenURLHandler_step h g req hu with hs | hs | hs
      · left; rw [hs.2]; simp [hu1]
      · obtain ⟨_, row, hf, hr⟩ := hs
        left
        rw [hr]
        refine ⟨hu1, Or.inr ⟨req, row, rfl, hu, ?_, rfl⟩⟩
        rw [← hu1]; exact hf
      · obtain ⟨_, hfresh, hr⟩ := hs
        rw [hu1] at hfresh
        rcases collisionLoop_urls req.URL maxCollisionRetries h.Store.begin.2 g hseq1 with
          ⟨k, hx, hurls, hk⟩ | ⟨hx, hurls⟩
        · right
          rw [hu1] at hurls hk
          refine ⟨req, k, rfl, hu, ?_, ?_, hk, hfresh⟩
          · rw [hr]; simp [hx]
          · rw [hr]; exact hurls
        · left
          rw [hu1] at hurls
          refine ⟨by rw [hr]; exact hurls, Or.inl ?_⟩
          rw [hr]
          cases hexit : (collisionLoop req.URL maxCollisionRetries h.Store.begin.2 g).exit with
          | returned resp =>
            have := collisionLoop_returned _ _ _ _ _ hexit
            exact ⟨_, _, this⟩
          | finished k2 success =>
            cases success with
            | true => exact absurd hexit (hx k2)
            | false => exact ⟨_, _, rfl⟩

theorem urlsUnique_append {urls : List UrlRow} {k u : String}
    (hn : UrlsUnique urls) (hu : ∀ r ∈ urls, r.original_url ≠ u) :
    UrlsUnique (urls ++ [⟨k, u⟩]) := by
  unfold UrlsUnique
  rw [List.map_append, List.nodup_append]
  refine ⟨hn, by simp, ?_⟩
  intro a ha hb
  simp only [List.map_cons, List.map_nil, List.mem_singleton] at hb
  obtain ⟨r, hr, rfl⟩ := List.mem_map.1 ha
  exact hu r hr hb

theorem serveShorten_urlsUnique (cfg : Config) (reqs : List (Option ShortenRequest)) :
    ∀ (s : SQLiteStore) (g : Rand), Sequential s.env → UrlsUnique s.urls →
      UrlsUnique (serveShorten cfg s g reqs).1.urls := by
  induction reqs with
  | nil => intro s g _ hn; simpa [serveShorten] using hn
  | cons body rest ih =>
    intro s g hseq hn
    unfold serveShorten
    apply ih
    · exact fun e he => hseq e (ShortenURLHandler_env_subset ⟨s, cfg⟩ g body e he)
    · rcases ShortenURLHandler_outcome ⟨s, cfg⟩ g body hseq with ⟨hsame, _⟩ | ⟨req, k, _, _, _, hurls, _, hfresh⟩
      · rw [hsame]; exact hn
      · rw [hurls]; exact urlsUnique_append hn hfresh

theorem ShortenURLHandler_success (cfg : Config) (s : SQLiteStore) (g : Rand) (u k : String)
    (c : Nat) (hseq : Sequential s.env)
    (h1 : (ShortenURLHandler ⟨s, cfg⟩ g (some ⟨u⟩)).resp =
      .JSON c ⟨cfg.AppBaseURL ++ "/" ++ k⟩) :
    u ≠ "" ∧
    ((c = StatusOK ∧ (ShortenURLHandler ⟨s, cfg⟩ g (some ⟨u⟩)).Store.urls = s.urls ∧
        ∃ row, s.urls.find? (fun r => decide (r.original_url = u)) = some row ∧
          row.short_key = k) ∨
      (c = StatusCreated ∧
        (ShortenURLHandler ⟨s, cfg⟩ g (some ⟨u⟩)).Store.urls = s.urls ++ [⟨k, u⟩] ∧
        (∀ x ∈ s.urls, x.short_key ≠ k) ∧ (∀ x ∈ s.urls, x.original_url ≠ u))) := by
  have hout := ShortenURLHandler_outcome ⟨s, cfg⟩ g (some ⟨u⟩) hseq
  dsimp only at hout
  rcases hout with ⟨hsame, ⟨b, c2, herr⟩ | ⟨req, row, hbody, hne, hfind, hresp⟩⟩ |
    ⟨req, k2, hbody, hne, hresp, hurls, hk, hfresh⟩
  · rw [herr] at h1; cases h1
  · cases hbody
    rw [hresp] at h1
    simp only [Response.JSON.injEq, ShortenResponse.mk.injEq] at h1
    have hk := append_left_cancel_string h1.2
    exact ⟨hne, Or.inl ⟨h1.1.symm, hsame, row, hfind, hk⟩⟩
  · cases hbody
    rw [hresp] at h1
    simp only [Response.JSON.injEq, ShortenResponse.mk.injEq] at h1
    have hkk := append_left_cancel_string h1.2
    subst hkk
    exact ⟨hne, Or.inr ⟨h1.1.symm, hurls, hk, hfresh⟩⟩

/-! ## Traces -/

theorem failed_last_singleton (a : Call) (pre : List Call) (c : Call) (post : List Call)
    (h : [a] = pre ++ c :: post) : post = [] := by
  cases pre with
  | nil => simp at h; exact h.2
  | cons x rest => simp at h

theorem failed_last_cons (a : Call) (l : List Call) (ha : a.failed = false)
    (hl : ∀ pre c post, l = pre ++ c :: post → c.failed = true → post = [])
    (pre : List Call) (c : Call) (post : List Call)
    (h : a :: l = pre ++ c :: post) (hc : c.failed = true) : post = [] := by
  cases pre with
  | nil =>
    simp only [List.nil_append, List.cons.injEq] at h
    rw [← h.1, ha] at hc
    cases hc
  | cons x rest =>
    simp only [List.cons_append, List.cons.injEq] at h
    exact hl rest c post h.2 hc

theorem collisionLoop_failed_last (u : String) :
    ∀ (n : Nat) (s : SQLiteStore) (g : Rand) (pre : List Call) (c : Call) (post : List Call),
      (collisionLoop u n s g).calls = pre ++ c :: post → c.failed = true → post = [] := by
  intro n
  induction n with
  | zero =>
    intro s g pre c post h _
    simp [collisionLoop] at h
  | succ n ih =>
    intro s g pre c post h hc
    rcases collisionLoop_step u n s g with hs | hs | hs | hs | hs
    · rw [hs.2] at h
      refine failed_last_cons _ _ ?_ ?_ pre c post h hc
      · rfl
      · exact fun p1 c1 q1 h1 _ => failed_last_singleton _ p1 c1 q1 h1
    · rw [hs.2.2] at h
      refine failed_last_cons _ _ ?_ ?_ pre c post h hc
      · rfl
      · intro pre2 c2 post2 h2 hc2
        refine failed_last_cons _ _ ?_ ?_ pre2 c2 post2 h2 hc2
        · rfl
        · exact ih _ _
    · rw [hs.2.2.2] at h
      refine failed_last_cons _ _ ?_ ?_ pre c post h hc
      · rfl
      · intro pre2 c2 post2 h2 hc2
        refine failed_last_cons _ _ ?_ ?_ pre2 c2 post2 h2 hc2
        · rfl
        · exact fun p1 c1 q1 h1 _ => failed_last_singleton _ p1 c1 q1 h1
    · rw [hs.2.2.2.2] at h
      refine failed_last_cons _ _ ?_ ?_ pre c post h hc
      · rfl
      · intro pre2 c2 post2 h2 hc2
        refine failed_last_cons _ _ ?_ ?_ pre2 c2 post2 h2 hc2
        · rfl
        · exact fun p1 c1 q1 h1 _ => failed_last_singleton _ p1 c1 q1 h1
    · rw [hs.2.2.2.2] at h
      refine failed_last_cons _ _ ?_ ?_ pre c post h hc
      · rfl
      · intro pre2 c2 post2 h2 hc2
        refine failed_last_cons _ _ ?_ ?_ pre2 c2 post2 h2 hc2
        · rfl
        · exact fun p1 c1 q1 h1 _ => failed_last_singleton _ p1 c1 q1 h1

theorem collisionLoop_failed_exit (u : String) :
    ∀ (n : Nat) (s : SQLiteStore) (g : Rand) (c : Call),
      c ∈ (collisionLoop u n s g).calls → c.failed = true →
        (collisionLoop u n s g).exit =
          .returned (.Error "\x7b\"error\": \"Internal server error\"\x7d"
            StatusInternalServerError) := by
  intro n
  induction n with
  | zero => intro s g c hc _; simp [collisionLoop] at hc
  | succ n ih =>
    intro s g c hc hf
    rcases collisionLoop_step u n s g with hs | hs | hs | hs | hs
    · rw [hs.2]
    · rw [hs.2.2] at hc ⊢
      simp only [List.mem_cons] at hc
      rcases hc with rfl | rfl | hc
      · cases hf
      · cases hf
      · exact ih _ _ c hc hf
    · rw [hs.2.2.2]
    · rw [hs.2.2.2.2]
    · rw [hs.2.2.2.2] at hc
      simp only [List.mem_cons, List.mem_singleton, List.not_mem_nil, or_false] at hc
      rcases hc with rfl | rfl | rfl <;> cases hf

theorem ShortenURLHandler_failed (h : Handler) (g : Rand) (u : String)
    (pre : List Call) (c : Call) (post : List Call)
    (hcalls : (ShortenURLHandler h g (some ⟨u⟩)).calls = pre ++ c :: post)
    (hc : c.failed = true) :
    (ShortenURLHandler h g (some ⟨u⟩)).resp =
      .Error "\x7b\"error\": \"Internal server error\"\x7d" StatusInternalServerError ∧
    post = [] := by
  by_cases hu : u = ""
  · subst hu
    simp [ShortenURLHandler] at hcalls
  · rcases ShortenURLHandler_step h g ⟨u⟩ hu with hs | hs | hs
    · rw [hs.2] at hcalls ⊢
      exact ⟨rfl, failed_last_singleton _ pre c post hcalls⟩
    · obtain ⟨_, row, _, hr⟩ := hs
      rw [hr] at hcalls
      have hpost := failed_last_singleton _ pre c post hcalls
      subst hpost
      cases pre with
      | nil =>
        simp only [List.nil_append, List.cons.injEq, and_true] at hcalls
        rw [← hcalls] at hc
        cases hc
      | cons x rest => simp at hcalls
    · rw [hs.2.2] at hcalls ⊢
      dsimp only at hcalls ⊢
      have hpost : post = [] := by
        refine failed_last_cons _ _ ?_ ?_ pre c post hcalls hc
        · rfl
        · exact collisionLoop_failed_last _ _ _ _
      refine ⟨?_, hpost⟩
      have hmem : c ∈ (collisionLoop u maxCollisionRetries h.Store.begin.2 g).calls := by
        cases pre with
        | nil =>
          simp only [List.nil_append, List.cons.injEq] at hcalls
          rw [← hcalls.1] at hc
          cases hc
        | cons x rest =>
          simp only [List.cons_append, List.cons.injEq] at hcalls
          rw [hcalls.2]
          simp
      rw [collisionLoop_failed_exit _ _ _ _ c hmem hc]

theorem faulted_failed (c : Call) (h : c.faulted = true) : c.failed = true := by
  cases c with
  | GetShortKey u res => cases res <;> exact h
  | GenerateShortKey k => simp [Call.faulted] at h
  | KeyExists k res => cases res <;> simp [Call.faulted, Call.failed] at h ⊢
  | SaveURL k u err => cases err <;> simp [Call.faulted, Call.failed] at h ⊢
  | GetURL k res => simp [Call.faulted] at h

theorem collisionLoop_exhausted (u : String) :
    ∀ (n : Nat) (s : SQLiteStore) (g : Rand), Sequential s.env →
      (∀ c ∈ (collisionLoop u n s g).calls, c.reportsTaken = true) →
      (collisionLoop u n s g).exit = .finished "" false ∧
      (collisionLoop u n s g).Store.urls = s.urls ∧
      (collisionLoop u n s g).calls.countP Call.isDraw = n ∧
      (collisionLoop u n s g).calls.countP Call.isSave = 0 ∧
      (collisionLoop u n s g).rand = ⟨g.raw, g.pos + keyLength * n⟩ := by
  intro n
  induction n with
  | zero => intro s g _ _; simp [collisionLoop]
  | succ n ih =>
    intro s g hseq hall
    have hu1 : s.begin.2.urls = s.urls := begin_urls_of_sequential s hseq
    have hseq1 : Sequential s.begin.2.env := fun e he => hseq e (begin_env_subset s e he)
    rcases collisionLoop_step u n s g with hs | hs | hs | hs | hs
    · rw [hs.2] at hall
      have := hall (.KeyExists (GenerateShortKey g).1 (.error .ErrFault)) (by simp)
      cases this
    · rw [hs.2.2] at hall ⊢
      dsimp only at hall ⊢
      have hrest : ∀ c ∈ (collisionLoop u n s.begin.2 (GenerateShortKey g).2).calls,
          c.reportsTaken = true :=
        fun c hc => hall c (List.mem_cons_of_mem _ (List.mem_cons_of_mem _ hc))
      obtain ⟨h1, h2, h3, h4, h5⟩ := ih s.begin.2 (GenerateShortKey g).2 hseq1 hrest
      refine ⟨h1, by rw [h2, hu1], ?_, ?_, ?_⟩
      · simp [List.countP_cons, Call.isDraw, h3]
      · simp [List.countP_cons, Call.isSave, h4]
      · rw [h5, GenerateShortKey_rand]
        simp only [Rand.mk.injEq, true_and]
        rw [Nat.mul_succ]
        omega
    · rw [hs.2.2.2] at hall
      have := hall (.KeyExists (GenerateShortKey g).1 (.ok false)) (by simp)
      cases this
    · rw [hs.2.2.2.2] at hall
      have := hall (.KeyExists (GenerateShortKey g).1 (.ok false)) (by simp)
      cases this
    · rw [hs.2.2.2.2] at hall
      have := hall (.KeyExists (GenerateShortKey g).1 (.ok false)) (by simp)
      cases this

theorem GetURL_fst (s : SQLiteStore) (k : String) :
    (s.GetURL k).1 =
      if s.begin.1 then .error .ErrFault
      else match s.begin.2.urls.find? (fun r => decide (r.short_key = k)) with
        | some r => .ok r.original_url
        | none => .error .ErrNoRows := by
  have hq := queryRow_fst s (fun r => decide (r.short_key = k))
  unfold SQLiteStore.GetURL
  dsimp only
  rw [hq]
  cases hb : s.begin.1 with
  | true => simp [Except.map]
  | false =>
    cases hf : s.begin.2.urls.find? (fun r => decide (r.short_key = k)) with
    | none => simp [Except.map]
    | some row => simp [Except.map]

theorem RedirectHandler_step (h : Handler) (g : Rand) (r : Request) :
    (h.Store.begin.1 = true ∧
      RedirectHandler h g r =
        ⟨.Error "Internal Server Error" StatusInternalServerError, h.Store.begin.2, g,
          [.GetURL r.shortKey (.error .ErrFault)]⟩) ∨
    (h.Store.begin.1 = false ∧
      ∃ row, h.Store.begin.2.urls.find? (fun x => decide (x.short_key = r.shortKey)) =
          some row ∧
        RedirectHandler h g r =
          ⟨.Redirect (redirectLocation r.Path row.original_url) StatusMovedPermanently,
            h.Store.begin.2, g, [.GetURL r.shortKey (.ok row.original_url)]⟩) ∨
    (h.Store.begin.1 = false ∧ (∀ x ∈ h.Store.begin.2.urls, x.short_key ≠ r.shortKey) ∧
      RedirectHandler h g r =
        ⟨.Error "Not Found" StatusNotFound, h.Store.begin.2, g,
          [.GetURL r.shortKey (.error .ErrNoRows)]⟩) := by
  have hq := GetURL_fst h.Store r.shortKey
  have hs := GetURL_store h.Store r.shortKey
  unfold RedirectHandler
  dsimp only
  rw [hs, hq]
  cases hb : h.Store.begin.1 with
  | true => left; simp
  | false =>
    right
    cases hf : h.Store.begin.2.urls.find? (fun x => decide (x.short_key = r.shortKey)) with
    | some row => left; exact ⟨rfl, row, rfl, by simp⟩
    | none =>
      right
      have hall : ∀ x ∈ h.Store.begin.2.urls, x.short_key ≠ r.shortKey := by
        intro x hx
        have := List.find?_eq_none.1 hf x hx
        simpa using this
      exact ⟨rfl, hall, by simp⟩

/-! ## The `Location` header -/

theorem hexEscapeNonASCII_visible (s : List Char)
    (h : s.all (fun c => decide (33 ≤ c.toNat) && decide (c.toNat ≤ 126)) = true) :
    hexEscapeNonASCII s = s := by
  induction s with
  | nil => rfl
  | cons c rest ih =>
    simp only [List.all_cons, Bool.and_eq_true, decide_eq_true_eq] at h
    have hlt : c.toNat < 128 := by omega
    simp only [hexEscapeNonASCII, hlt, if_true]
    rw [ih (by simpa using h.2)]

theorem parseRelative_of_scheme (u scheme rest : List Char)
    (hs : getScheme u = some (scheme, rest)) (hne : scheme ≠ []) :
    parseRelative u = false := by
  unfold parseRelative
  split
  · rfl
  · split
    · rename_i hstar
      subst hstar
      have : getScheme [Char.ofNat 42] = some ([], [Char.ofNat 42]) := by decide
      rw [this] at hs
      cases hs
      exact absurd rfl hne
    · rw [hs]
      simp [hne]

theorem relativeTarget_of_hasScheme (url : String) (h : hasScheme url = true) :
    relativeTarget url.data = false := by
  unfold hasScheme at h
  cases hs : getScheme (cut '#' url.data).1 with
  | none => rw [hs] at h; cases h
  | some p =>
    obtain ⟨scheme, rest⟩ := p
    rw [hs] at h
    have hne : scheme ≠ [] := by simpa using h
    unfold relativeTarget
    rw [parseRelative_of_scheme _ scheme rest hs hne]
    rfl

theorem redirectLocation_absolute (oldpath url : String) (hs : hasScheme url = true)
    (ha : isVisibleASCII url = true) : redirectLocation oldpath url = url := by
  unfold redirectLocation
  rw [relativeTarget_of_hasScheme url hs]
  simp only [Bool.false_eq_true, if_false]
  rw [hexEscapeNonASCII_visible url.data ha]

/-! ## Claims -/

/-- C1. Short-key uniqueness is an invariant of the store: starting from an
empty table, after any finite sequence of `ShortenURLHandler` calls, with any
request bodies, any outcomes of the random source and any environment (faults
and writes of other connections included), no two rows of `urls` share a
`short_key`. -/
theorem short_key_unique (cfg : Config) (env : List Env) (g : Rand)
    (reqs : List (Option ShortenRequest)) :
    ((serveShorten cfg ⟨[], env⟩ g reqs).1.urls.map UrlRow.short_key).Nodup :=
  serveShorten_keysUnique cfg reqs ⟨[], env⟩ g List.nodup_nil

/-- C5. Key format: whatever the random source yields, `GenerateShortKey`
returns a string of exactly 7 characters, each of them a symbol of `charset`:
the i-th one is the symbol at the position given by the i-th draw
`rand.N(62)`, a value in `0 .. 61`; seven draws are consumed; and `charset`
has exactly 62 pairwise distinct symbols. -/
theorem key_format (g : Rand) :
    (GenerateShortKey g).1.length = 7 ∧
    (∀ c ∈ (GenerateShortKey g).1.data, c ∈ charset.data) ∧
    (∀ i, i < 7 → g.raw (g.pos + i) % 62 < 62 ∧
      (GenerateShortKey g).1.data[i]? = charset.data[g.raw (g.pos + i) % 62]?) ∧
    (GenerateShortKey g).2 = ⟨g.raw, g.pos + 7⟩ ∧
    charset.length = 62 ∧ charset.data.Nodup := by
  refine ⟨?_, ?_, ?_, ?_, ?_, ?_⟩
  · exact fillKey_length keyLength g
  · exact fillKey_mem keyLength g
  · intro i hi
    exact ⟨Nat.mod_lt _ (by decide), fillKey_getElem keyLength g i hi⟩
  · exact fillKey_rand keyLength g
  · decide
  · decide

/-- C9. Empty input fails fast: whatever the store and the generator, a shorten
request whose decoded `url` field is the empty string is answered with
400 Bad Request, no call is made on the store or on the key generator, and
store and generator are left exactly as they were. -/
theorem empty_url_fails_fast (h : Handler) (g : Rand) :
    (ShortenURLHandler h g (some ⟨""⟩)).resp =
      .Error "\x7b\"error\": \"URL cannot be empty\"\x7d" StatusBadRequest ∧
    (ShortenURLHandler h g (some ⟨""⟩)).resp.status = 400 ∧
    (ShortenURLHandler h g (some ⟨""⟩)).calls = [] ∧
    (ShortenURLHandler h g (some ⟨""⟩)).Store = h.Store ∧
    (ShortenURLHandler h g (some ⟨""⟩)).rand = g := by
  simp [ShortenURLHandler, Response.status]

/-- C10. One URL, one key under sequential use: starting from an empty table,
after any finite sequence of `ShortenURLHandler` calls served one after the
other (any request bodies, any outcomes of the random source), with no other
writer on the table, no two rows of `urls` share an `original_url`.  Store
faults are allowed at any call; the fault-free case of the claim is the
special case of a script without faults. -/
theorem original_url_unique (cfg : Config) (env : List Env) (g : Rand)
    (reqs : List (Option ShortenRequest)) (hseq : Sequential env) :
    ((serveShorten cfg ⟨[], env⟩ g reqs).1.urls.map UrlRow.original_url).Nodup :=
  serveShorten_urlsUnique cfg reqs ⟨[], env⟩ g hseq List.nodup_nil

/-- C10, worked example: the same URL shortened twice around another one
leaves two rows. -/
theorem original_url_unique_witness :
    Sequential [] ∧
    (serveShorten defaultConfig ⟨[], []⟩ sampleRand
      [some ⟨"https://example.com/a"⟩, some ⟨"https://example.com/b"⟩,
        some ⟨"https://example.com/a"⟩]).1.urls =
      [⟨"dkryFMT", "https://example.com/a"⟩, ⟨"07elszG", "https://example.com/b"⟩] ∧
    ((serveShorten defaultConfig ⟨[], []⟩ sampleRand
      [some ⟨"https://example.com/a"⟩, some ⟨"https://example.com/b"⟩,
        some ⟨"https://example.com/a"⟩]).1.urls.map UrlRow.original_url).Nodup :=
  ⟨by decide, by decide, original_url_unique defaultConfig [] sampleRand _ (by decide)⟩

/-- C2. Shortening is idempotent: for every URL and every store state, with
no other writer on the table, if a `ShortenURLHandler` call for the URL
succeeds (200 or 201) with key `k`, then the call for the same URL that
follows at once, on a store that does not fault, answers 200 OK with the same
key `k`, makes the single call `GetShortKey` (no candidate key is drawn,
`SaveURL` is not called), and leaves the table and the random source as they
were.  A successful answer already entails that the URL is not empty. -/
theorem shorten_idempotent (cfg : Config) (s : SQLiteStore) (g : Rand) (u k : String)
    (c : Nat) (hseq : Sequential s.env)
    (h1 : (ShortenURLHandler ⟨s, cfg⟩ g (some ⟨u⟩)).resp =
      .JSON c ⟨cfg.AppBaseURL ++ "/" ++ k⟩)
    (hh : Healthy (ShortenURLHandler ⟨s, cfg⟩ g (some ⟨u⟩)).Store.env) :
    (ShortenURLHandler ⟨(ShortenURLHandler ⟨s, cfg⟩ g (some ⟨u⟩)).Store, cfg⟩
        (ShortenURLHandler ⟨s, cfg⟩ g (some ⟨u⟩)).rand (some ⟨u⟩)).resp =
      .JSON StatusOK ⟨cfg.AppBaseURL ++ "/" ++ k⟩ ∧
    (ShortenURLHandler ⟨(ShortenURLHandler ⟨s, cfg⟩ g (some ⟨u⟩)).Store, cfg⟩
        (ShortenURLHandler ⟨s, cfg⟩ g (some ⟨u⟩)).rand (some ⟨u⟩)).calls =
      [.GetShortKey u (.ok k)] ∧
    (ShortenURLHandler ⟨(ShortenURLHandler ⟨s, cfg⟩ g (some ⟨u⟩)).Store, cfg⟩
        (ShortenURLHandler ⟨s, cfg⟩ g (some ⟨u⟩)).rand (some ⟨u⟩)).Store.urls =
      (ShortenURLHandler ⟨s, cfg⟩ g (some ⟨u⟩)).Store.urls ∧
    (ShortenURLHandler ⟨(ShortenURLHandler ⟨s, cfg⟩ g (some ⟨u⟩)).Store, cfg⟩
        (ShortenURLHandler ⟨s, cfg⟩ g (some ⟨u⟩)).rand (some ⟨u⟩)).rand =
      (ShortenURLHandler ⟨s, cfg⟩ g (some ⟨u⟩)).rand := by
  obtain ⟨hu, hcases⟩ := ShortenURLHandler_success cfg s g u k c hseq h1
  have hsub := ShortenURLHandler_env_subset ⟨s, cfg⟩ g (some ⟨u⟩)
  dsimp only at hsub
  generalize ShortenURLHandler ⟨s, cfg⟩ g (some ⟨u⟩) = r1 at h1 hh hcases hsub ⊢
  have hseq1 : Sequential r1.Store.env := fun e he => hseq e (hsub e he)
  have hb : r1.Store.begin.1 = false := begin_fault_of_healthy _ hh
  have hu1 : r1.Store.begin.2.urls = r1.Store.urls := begin_urls_of_sequential _ hseq1
  have hfind : ∃ row, r1.Store.urls.find? (fun r => decide (r.original_url = u)) = some row ∧
      row.short_key = k := by
    rcases hcases with ⟨_, hsame, row, hf, hk⟩ | ⟨_, hurls, _, hfresh⟩
    · exact ⟨row, by rw [hsame]; exact hf, hk⟩
    · refine ⟨⟨k, u⟩, ?_, rfl⟩
      rw [hurls]
      apply find_append_fresh
      · intro r hr
        simpa using hfresh r hr
      · simp
  obtain ⟨row, hf, hk⟩ := hfind
  have hhit := ShortenURLHandler_hit ⟨r1.Store, cfg⟩ r1.rand ⟨u⟩ row hu hb
    (by rw [hu1]; exact hf)
  rw [hhit]
  subst hk
  exact ⟨rfl, rfl, hu1, rfl⟩

/-- C2, worked example: the first call on an empty table answers 201 with the
key `dkryFMT`, the second one 200 with the same key. -/
theorem shorten_idempotent_witness :
    Sequential ([] : List Env) ∧
    (ShortenURLHandler ⟨⟨[], []⟩, defaultConfig⟩ sampleRand
        (some ⟨"https://example.com/a"⟩)).resp =
      .JSON 201 ⟨defaultConfig.AppBaseURL ++ "/" ++ "dkryFMT"⟩ ∧
    (ShortenURLHandler
        ⟨(ShortenURLHandler ⟨⟨[], []⟩, defaultConfig⟩ sampleRand
          (some ⟨"https://example.com/a"⟩)).Store, defaultConfig⟩
        (ShortenURLHandler ⟨⟨[], []⟩, defaultConfig⟩ sampleRand
          (some ⟨"https://example.com/a"⟩)).rand
        (some ⟨"https://example.com/a"⟩)).resp =
      .JSON StatusOK ⟨defaultConfig.AppBaseURL ++ "/" ++ "dkryFMT"⟩ :=
  ⟨by decide, by decide,
    (shorten_idempotent defaultConfig ⟨[], []⟩ sampleRand "https://example.com/a" "dkryFMT"
      201 (by decide) (by decide) (by decide)).1⟩

/-- C3. Round trip: for every URL and every store state (whether or not its
short keys are unique), with no other writer on the table, if
`ShortenURLHandler` answers 201 Created with key `k`, then in the store it
leaves, read without a fault, `GetURL(k)` returns the URL and
`GetShortKey` of the URL returns `k`.  A 201 answer already entails that the
URL is not empty. -/
theorem shorten_round_trip (cfg : Config) (s : SQLiteStore) (g : Rand) (u k : String)
    (hseq : Sequential s.env)
    (h1 : (ShortenURLHandler ⟨s, cfg⟩ g (some ⟨u⟩)).resp =
      .JSON StatusCreated ⟨cfg.AppBaseURL ++ "/" ++ k⟩)
    (hh : Healthy (ShortenURLHandler ⟨s, cfg⟩ g (some ⟨u⟩)).Store.env) :
    ((ShortenURLHandler ⟨s, cfg⟩ g (some ⟨u⟩)).Store.GetURL k).1 = .ok u ∧
    ((ShortenURLHandler ⟨s, cfg⟩ g (some ⟨u⟩)).Store.GetShortKey u).1 = .ok k := by
  obtain ⟨_, hcases⟩ := ShortenURLHandler_success cfg s g u k _ hseq h1
  have hsub := ShortenURLHandler_env_subset ⟨s, cfg⟩ g (some ⟨u⟩)
  dsimp only at hsub
  generalize ShortenURLHandler ⟨s, cfg⟩ g (some ⟨u⟩) = r1 at h1 hh hcases hsub ⊢
  have hseq1 : Sequential r1.Store.env := fun e he => hseq e (hsub e he)
  have hb : r1.Store.begin.1 = false := begin_fault_of_healthy _ hh
  have hu1 : r1.Store.begin.2.urls = r1.Store.urls := begin_urls_of_sequential _ hseq1
  rcases hcases with ⟨hc, _⟩ | ⟨_, hurls, hk, hfresh⟩
  · cases hc
  · constructor
    · have hf : r1.Store.begin.2.urls.find? (fun r => decide (r.short_key = k)) =
          some ⟨k, u⟩ := by
        rw [hu1, hurls]
        apply find_append_fresh
        · intro r hr
          simpa using hk r hr
        · simp
      exact GetURL_of_find hb hf
    · have hf : r1.Store.begin.2.urls.find? (fun r => decide (r.original_url = u)) =
          some ⟨k, u⟩ := by
        rw [hu1, hurls]
        apply find_append_fresh
        · intro r hr
          simpa using hfresh r hr
        · simp
      exact GetShortKey_of_find hb hf

/-- C3, worked example: a table that already holds one row. -/
theorem shorten_round_trip_witness :
    Sequential ([] : List Env) ∧
    (ShortenURLHandler ⟨⟨[⟨"abc1234", "https://example.com/b"⟩], []⟩, defaultConfig⟩ sampleRand
        (some ⟨"https://example.com/a"⟩)).resp =
      .JSON StatusCreated ⟨defaultConfig.AppBaseURL ++ "/" ++ "dkryFMT"⟩ ∧
    ((ShortenURLHandler ⟨⟨[⟨"abc1234", "https://example.com/b"⟩], []⟩, defaultConfig⟩ sampleRand
        (some ⟨"https://example.com/a"⟩)).Store.GetURL "dkryFMT").1 =
      .ok "https://example.com/a" ∧
    ((ShortenURLHandler ⟨⟨[⟨"abc1234", "https://example.com/b"⟩], []⟩, defaultConfig⟩ sampleRand
        (some ⟨"https://example.com/a"⟩)).Store.GetShortKey "https://example.com/a").1 =
      .ok "dkryFMT" :=
  ⟨by decide, by decide,
    shorten_round_trip defaultConfig ⟨[⟨"abc1234", "https://example.com/b"⟩], []⟩ sampleRand
      "https://example.com/a" "dkryFMT" (by decide) (by decide) (by decide)⟩

/-- C7. Storage faults are surfaced as 500 and stop the request: whenever a
call made by `ShortenURLHandler` ends with a storage fault (`GetShortKey`
with an error other than `sql.ErrNoRows`, `KeyExists` with any error,
`SaveURL` with an error other than a duplicate key), the handler answers
500 Internal Server Error, and that call is the last one it makes: no store
call and no key draw follows it. -/
theorem storage_fault_is_500 (h : Handler) (g : Rand) (u : String)
    (pre : List Call) (c : Call) (post : List Call)
    (hcalls : (ShortenURLHandler h g (some ⟨u⟩)).calls = pre ++ c :: post)
    (hc : c.faulted = true) :
    (ShortenURLHandler h g (some ⟨u⟩)).resp =
      .Error "\x7b\"error\": \"Internal server error\"\x7d" StatusInternalServerError ∧
    (ShortenURLHandler h g (some ⟨u⟩)).resp.status = 500 ∧
    post = [] := by
  obtain ⟨hr, hp⟩ := ShortenURLHandler_failed h g u pre c post hcalls (faulted_failed c hc)
  refine ⟨hr, ?_, hp⟩
  rw [hr]
  rfl

/-- C7, worked example: the first candidate is taken and the second
`KeyExists` call faults. -/
theorem storage_fault_is_500_witness :
    (ShortenURLHandler
        ⟨⟨[⟨"aaaaaaa", "https://example.com/b"⟩], [⟨[], false⟩, ⟨[], false⟩, ⟨[], true⟩]⟩,
          defaultConfig⟩ stuckRand (some ⟨"https://example.com/a"⟩)).calls =
      [.GetShortKey "https://example.com/a" (.error .ErrNoRows),
        .GenerateShortKey "aaaaaaa", .KeyExists "aaaaaaa" (.ok true),
        .GenerateShortKey "aaaaaaa"] ++ .KeyExists "aaaaaaa" (.error .ErrFault) :: [] ∧
    (Call.KeyExists "aaaaaaa" (.error .ErrFault)).faulted = true ∧
    (ShortenURLHandler
        ⟨⟨[⟨"aaaaaaa", "https://example.com/b"⟩], [⟨[], false⟩, ⟨[], false⟩, ⟨[], true⟩]⟩,
          defaultConfig⟩ stuckRand (some ⟨"https://example.com/a"⟩)).resp.status = 500 :=
  ⟨by decide, by decide,
    (storage_fault_is_500
      ⟨⟨[⟨"aaaaaaa", "https://example.com/b"⟩], [⟨[], false⟩, ⟨[], false⟩, ⟨[], true⟩]⟩,
        defaultConfig⟩ stuckRand "https://example.com/a"
      [.GetShortKey "https://example.com/a" (.error .ErrNoRows),
        .GenerateShortKey "aaaaaaa", .KeyExists "aaaaaaa" (.ok true),
        .GenerateShortKey "aaaaaaa"]
      (.KeyExists "aaaaaaa" (.error .ErrFault)) [] (by decide) (by decide)).2.1⟩

/-- C4. Retry-budget exhaustion: for every non-empty URL that `GetShortKey`
reports as not yet mapped, with no other writer on the table, if every
`KeyExists` call of the run returns `true` without error, then
`ShortenURLHandler` answers 503 Service Unavailable, draws exactly 10
candidate keys (70 draws of the random source), never calls `SaveURL`, and
leaves the table unchanged. -/
theorem retry_budget_exhausted (cfg : Config) (s : SQLiteStore) (g : Rand) (u : String)
    (hu : u ≠ "") (hseq : Sequential s.env)
    (hmiss : (s.GetShortKey u).1 = .error .ErrNoRows)
    (hall : ∀ c ∈ (ShortenURLHandler ⟨s, cfg⟩ g (some ⟨u⟩)).calls, c.reportsTaken = true) :
    (ShortenURLHandler ⟨s, cfg⟩ g (some ⟨u⟩)).resp =
      .Error "\x7b\"error\": \"Service unavailable, please try again later\"\x7d"
        StatusServiceUnavailable ∧
    (ShortenURLHandler ⟨s, cfg⟩ g (some ⟨u⟩)).resp.status = 503 ∧
    (ShortenURLHandler ⟨s, cfg⟩ g (some ⟨u⟩)).calls.countP Call.isDraw = 10 ∧
    (ShortenURLHandler ⟨s, cfg⟩ g (some ⟨u⟩)).calls.countP Call.isSave = 0 ∧
    (ShortenURLHandler ⟨s, cfg⟩ g (some ⟨u⟩)).Store.urls = s.urls ∧
    (ShortenURLHandler ⟨s, cfg⟩ g (some ⟨u⟩)).rand = ⟨g.raw, g.pos + 70⟩ := by
  obtain ⟨hb, hfresh⟩ := GetShortKey_noRows hmiss
  have hu1 : s.begin.2.urls = s.urls := begin_urls_of_sequential s hseq
  have hseq1 : Sequential s.begin.2.env := fun e he => hseq e (begin_env_subset s e he)
  rcases ShortenURLHandler_step ⟨s, cfg⟩ g ⟨u⟩ hu with hs | hs | hs
  · rw [hs.1] at hb; cases hb
  · obtain ⟨_, row, hf, _⟩ := hs
    have hmem := List.mem_of_find?_eq_some hf
    have hp := List.find?_some hf
    exact absurd (by simpa using hp) (hfresh row hmem)
  · obtain ⟨_, _, hr⟩ := hs
    dsimp only at hr
    rw [hr] at hall ⊢
    dsimp only at hall ⊢
    have hrest : ∀ c ∈ (collisionLoop u maxCollisionRetries s.begin.2 g).calls,
        c.reportsTaken = true := fun c hc => hall c (List.mem_cons_of_mem _ hc)
    obtain ⟨h1, h2, h3, h4, h5⟩ :=
      collisionLoop_exhausted u maxCollisionRetries s.begin.2 g hseq1 hrest
    refine ⟨?_, ?_, ?_, ?_, ?_, ?_⟩
    · rw [h1]; rfl
    · rw [h1]; rfl
    · rw [List.countP_cons, h3]; rfl
    · rw [List.countP_cons, h4]; rfl
    · rw [h2, hu1]
    · rw [h5]; rfl

/-- C4, worked example: the table holds `aaaaaaa` and the random source yields
this key at every draw. -/
theorem retry_budget_exhausted_witness :
    "https://example.com/a" ≠ "" ∧
    Sequential ([] : List Env) ∧
    (SQLiteStore.GetShortKey ⟨[⟨"aaaaaaa", "https://example.com/b"⟩], []⟩
      "https://example.com/a").1 = .error .ErrNoRows ∧
    (∀ c ∈ (ShortenURLHandler ⟨⟨[⟨"aaaaaaa", "https://example.com/b"⟩], []⟩, defaultConfig⟩
      stuckRand (some ⟨"https://example.com/a"⟩)).calls, c.reportsTaken = true) ∧
    (ShortenURLHandler ⟨⟨[⟨"aaaaaaa", "https://example.com/b"⟩], []⟩, defaultConfig⟩
      stuckRand (some ⟨"https://example.com/a"⟩)).resp.status = 503 :=
  ⟨by decide, by decide, by decide, by decide,
    (retry_budget_exhausted defaultConfig ⟨[⟨"aaaaaaa", "https://example.com/b"⟩], []⟩
      stuckRand "https://example.com/a" (by decide) (by decide) (by decide) (by decide)).2.1⟩

/-- C6, counterexample: on an empty table the candidate `aaaaaaa` is found
free by `KeyExists`, another connection commits a row with that key before
the insert runs, and `SaveURL` fails on the `UNIQUE` constraint at the first
of the ten attempts.  The handler answers 500 Internal Server Error, the
failed `SaveURL` is its last call, and it has drawn one candidate only. -/
theorem duplicate_key_not_retried :
    (ShortenURLHandler
        ⟨⟨[], [⟨[], false⟩, ⟨[], false⟩, ⟨[⟨"aaaaaaa", "https://example.com/b"⟩], false⟩]⟩,
          defaultConfig⟩ stuckRand (some ⟨"https://example.com/a"⟩)).calls =
      [.GetShortKey "https://example.com/a" (.error .ErrNoRows),
        .GenerateShortKey "aaaaaaa", .KeyExists "aaaaaaa" (.ok false),
        .SaveURL "aaaaaaa" "https://example.com/a" (some .ErrConstraintUnique)] ∧
    (ShortenURLHandler
        ⟨⟨[], [⟨[], false⟩, ⟨[], false⟩, ⟨[⟨"aaaaaaa", "https://example.com/b"⟩], false⟩]⟩,
          defaultConfig⟩ stuckRand (some ⟨"https://example.com/a"⟩)).resp =
      .Error "\x7b\"error\": \"Internal server error\"\x7d" 500 ∧
    (ShortenURLHandler
        ⟨⟨[], [⟨[], false⟩, ⟨[], false⟩, ⟨[⟨"aaaaaaa", "https://example.com/b"⟩], false⟩]⟩,
          defaultConfig⟩ stuckRand (some ⟨"https://example.com/a"⟩)).calls.countP
        Call.isDraw = 1 ∧
    1 < maxCollisionRetries := by
  decide

/-- C6, as amended. A duplicate-key conflict reported by `SaveURL` is surfaced
like any other failure of the save: whenever a `SaveURL` call of
`ShortenURLHandler` fails because the `short_key` already exists, the handler
answers 500 Internal Server Error and that call is its last one: no new
candidate key is drawn and no further store call is made. -/
theorem duplicate_key_is_500 (h : Handler) (g : Rand) (u : String)
    (pre : List Call) (k v : String) (post : List Call)
    (hcalls : (ShortenURLHandler h g (some ⟨u⟩)).calls =
      pre ++ .SaveURL k v (some .ErrConstraintUnique) :: post) :
    (ShortenURLHandler h g (some ⟨u⟩)).resp =
      .Error "\x7b\"error\": \"Internal server error\"\x7d" StatusInternalServerError ∧
    (ShortenURLHandler h g (some ⟨u⟩)).resp.status = 500 ∧
    post = [] := by
  obtain ⟨hr, hp⟩ := ShortenURLHandler_failed h g u pre _ post hcalls rfl
  refine ⟨hr, ?_, hp⟩
  rw [hr]
  rfl

/-- C6 as amended, worked example: the run of the counterexample. -/
theorem duplicate_key_is_500_witness :
    (ShortenURLHandler
        ⟨⟨[], [⟨[], false⟩, ⟨[], false⟩, ⟨[⟨"aaaaaaa", "https://example.com/b"⟩], false⟩]⟩,
          defaultConfig⟩ stuckRand (some ⟨"https://example.com/a"⟩)).calls =
      [.GetShortKey "https://example.com/a" (.error .ErrNoRows),
        .GenerateShortKey "aaaaaaa", .KeyExists "aaaaaaa" (.ok false)] ++
        .SaveURL "aaaaaaa" "https://example.com/a" (some .ErrConstraintUnique) :: [] ∧
    (ShortenURLHandler
        ⟨⟨[], [⟨[], false⟩, ⟨[], false⟩, ⟨[⟨"aaaaaaa", "https://example.com/b"⟩], false⟩]⟩,
          defaultConfig⟩ stuckRand (some ⟨"https://example.com/a"⟩)).resp.status = 500 :=
  ⟨by decide,
    (duplicate_key_is_500
      ⟨⟨[], [⟨[], false⟩, ⟨[], false⟩, ⟨[⟨"aaaaaaa", "https://example.com/b"⟩], false⟩]⟩,
        defaultConfig⟩ stuckRand "https://example.com/a"
      [.GetShortKey "https://example.com/a" (.error .ErrNoRows),
        .GenerateShortKey "aaaaaaa", .KeyExists "aaaaaaa" (.ok false)]
      "aaaaaaa" "https://example.com/a" [] (by decide)).2.1⟩

/-- C8, counterexample: the URL `example.com/x`, which has no scheme, is
shortened on an empty table and gets the key `dkryFMT`; the redirect request
for `/dkryFMT` is answered 301 with the `Location` header `/example.com/x`,
which is not the stored `original_url`.  In the same way the stored URL
`https://example.com/é` is sent with its last character percent-encoded. -/
theorem redirect_location_rewritten :
    (ShortenURLHandler ⟨⟨[], []⟩, defaultConfig⟩ sampleRand (some ⟨"example.com/x"⟩)).resp =
      .JSON StatusCreated ⟨"http://localhost:8080/dkryFMT"⟩ ∧
    (ShortenURLHandler ⟨⟨[], []⟩, defaultConfig⟩ sampleRand
      (some ⟨"example.com/x"⟩)).Store.urls = [⟨"dkryFMT", "example.com/x"⟩] ∧
    (RedirectHandler
      ⟨(ShortenURLHandler ⟨⟨[], []⟩, defaultConfig⟩ sampleRand (some ⟨"example.com/x"⟩)).Store,
        defaultConfig⟩ sampleRand ⟨"/dkryFMT", "dkryFMT"⟩).resp =
      .Redirect "/example.com/x" StatusMovedPermanently ∧
    "/example.com/x" ≠ "example.com/x" ∧
    (RedirectHandler ⟨⟨[⟨"dkryFMT", "https://example.com/é"⟩], []⟩, defaultConfig⟩ sampleRand
      ⟨"/dkryFMT", "dkryFMT"⟩).resp =
      .Redirect "https://example.com/%c3%a9" StatusMovedPermanently ∧
    "https://example.com/%c3%a9" ≠ "https://example.com/é" := by
  decide

/-- C8, as amended. Redirect resolution: for every store state and every
request, with no other writer on the table, `RedirectHandler` leaves the
table and the random source as they were and makes the single call `GetURL`;
and when that call does not fault, it answers 301 Moved Permanently when a row
with the key exists (the first such row; the only one when short keys are
unique), with the `Location` header `http.Redirect` sets for the stored
`original_url`, which is the stored `original_url` itself whenever that URL
starts with a scheme and consists of visible ASCII characters; and it answers
404 Not Found when no row with the key exists.  In particular a key never
persisted yields 404. -/
theorem redirect_resolution (h : Handler) (g : Rand) (r : Request)
    (hseq : Sequential h.Store.env) :
    (RedirectHandler h g r).Store.urls = h.Store.urls ∧
    (RedirectHandler h g r).rand = g ∧
    (∃ res, (RedirectHandler h g r).calls = [.GetURL r.shortKey res]) ∧
    (Healthy h.Store.env → ∀ row ∈ h.Store.urls, row.short_key = r.shortKey →
      KeysUnique h.Store.urls →
      (RedirectHandler h g r).resp =
        .Redirect (redirectLocation r.Path row.original_url) StatusMovedPermanently ∧
      (hasScheme row.original_url = true → isVisibleASCII row.original_url = true →
        (RedirectHandler h g r).resp =
          .Redirect row.original_url StatusMovedPermanently)) ∧
    (Healthy h.Store.env → (∃ row ∈ h.Store.urls, row.short_key = r.shortKey) →
      ∃ row ∈ h.Store.urls, row.short_key = r.shortKey ∧
        (RedirectHandler h g r).resp =
          .Redirect (redirectLocation r.Path row.original_url) StatusMovedPermanently ∧
        (hasScheme row.original_url = true → isVisibleASCII row.original_url = true →
          (RedirectHandler h g r).resp =
            .Redirect row.original_url StatusMovedPermanently)) ∧
    (Healthy h.Store.env → (∀ row ∈ h.Store.urls, row.short_key ≠ r.shortKey) →
      (RedirectHandler h g r).resp = .Error "Not Found" StatusNotFound) := by
  have hu1 : h.Store.begin.2.urls = h.Store.urls := begin_urls_of_sequential _ hseq
  have hfault : Healthy h.Store.env → h.Store.begin.1 = false := begin_fault_of_healthy _
  rcases RedirectHandler_step h g r with hs | hs | hs
  · obtain ⟨hb, hr⟩ := hs
    rw [hr]
    refine ⟨hu1, rfl, ⟨_, rfl⟩, ?_, ?_, ?_⟩ <;>
      · intro hh
        rw [hfault hh] at hb
        cases hb
  · obtain ⟨_, row0, hf, hr⟩ := hs
    rw [hu1] at hf
    have hmem := List.mem_of_find?_eq_some hf
    have hp : row0.short_key = r.shortKey := by simpa using List.find?_some hf
    have habs : hasScheme row0.original_url = true → isVisibleASCII row0.original_url = true →
        (Response.Redirect (redirectLocation r.Path row0.original_url)
          StatusMovedPermanently) =
          .Redirect row0.original_url StatusMovedPermanently := by
      intro h1 h2
      rw [redirectLocation_absolute r.Path row0.original_url h1 h2]
    rw [hr]
    refine ⟨hu1, rfl, ⟨_, rfl⟩, ?_, ?_, ?_⟩
    · intro _ row hrow hk huniq
      have : row = row0 := List.inj_on_of_nodup_map huniq hrow hmem (by rw [hk, hp])
      rw [this]
      exact ⟨rfl, habs⟩
    · intro _ _
      exact ⟨row0, hmem, hp, rfl, habs⟩
    · intro _ hnone
      exact absurd hp (hnone row0 hmem)
  · obtain ⟨_, hall, hr⟩ := hs
    rw [hu1] at hall
    rw [hr]
    refine ⟨hu1, rfl, ⟨_, rfl⟩, ?_, ?_, ?_⟩
    · intro _ row hrow hk _
      exact absurd hk (hall row hrow)
    · rintro _ ⟨row, hrow, hk⟩
      exact absurd hk (hall row hrow)
    · intro _ _
      rfl

/-- C8 as amended, worked example: a table with one row whose URL starts with
a scheme and consists of visible ASCII characters, asked for its key and for
an unrelated 7-character string. -/
theorem redirect_resolution_witness :
    Sequential ([] : List Env) ∧
    hasScheme "https://example.com/a" = true ∧ isVisibleASCII "https://example.com/a" = true ∧
    (RedirectHandler ⟨⟨[⟨"dkryFMT", "https://example.com/a"⟩], []⟩, defaultConfig⟩ sampleRand
      ⟨"/dkryFMT", "dkryFMT"⟩).resp = .Redirect "https://example.com/a" 301 ∧
    (RedirectHandler ⟨⟨[⟨"dkryFMT", "https://example.com/a"⟩], []⟩, defaultConfig⟩ sampleRand
      ⟨"/zzzzzzz", "zzzzzzz"⟩).resp = .Error "Not Found" 404 ∧
    (RedirectHandler ⟨⟨[⟨"dkryFMT", "https://example.com/a"⟩], []⟩, defaultConfig⟩ sampleRand
      ⟨"/zzzzzzz", "zzzzzzz"⟩).Store.urls = [⟨"dkryFMT", "https://example.com/a"⟩] :=
  ⟨by decide, by decide, by decide,
    ((redirect_resolution ⟨⟨[⟨"dkryFMT", "https://example.com/a"⟩], []⟩, defaultConfig⟩
      sampleRand ⟨"/dkryFMT", "dkryFMT"⟩ (by decide)).2.2.2.1 (by decide)
      ⟨"dkryFMT", "https://example.com/a"⟩ (by decide) rfl (by decide)).2
      (by decide) (by decide),
    by decide,
    (redirect_resolution ⟨⟨[⟨"dkryFMT", "https://example.com/a"⟩], []⟩, defaultConfig⟩
      sampleRand ⟨"/zzzzzzz", "zzzzzzz"⟩ (by decide)).1⟩

end UrlShortener
